import Mathlib

/-!
# Claims Management System — verification of the domain engine

Shallow embedding of the in-memory claims-management engine of this
repository (`SCMS_api.py`, with the `SCMS_CRUD.py` variant of `update_claim`
modelled separately where a claim refers to it).

Modelling conventions, chosen to mirror the Python source:

* Python `datetime` values are modelled as `Int`, counting days.  The only
  construction path in the repository (`parse_date`, `"%Y-%m-%d"`) produces
  midnight datetimes, so a `timedelta.days` between two such values is exactly
  the difference of the day numbers.
* Python `float` amounts are modelled as `ℚ` (the comparisons `<=`, `>` with
  literals behave identically on the exact values used).
* A Python `dict` is modelled as an association list `List (String × α)`
  keyed by id, with `mapGet` / `mapSet` / `mapErase` / append mirroring
  `d.get(k)` / in-place field mutation of the stored object / `del d[k]` /
  insertion of a fresh key.  Python dictionaries never hold a key twice; the
  corresponding well-formedness predicate `WF` is an explicit hypothesis
  where a proof needs it.
* A raised `ValidationError` / `BusinessRuleViolation` is modelled as the
  result `Err.validation` / `Err.businessRule`; an uncaught `KeyError`
  (possible in the `SCMS_CRUD` variant of `update_claim`) is `Err.keyError`.
  Every engine operation returns `Option Err × State`: the error (if any)
  and the store *after* the call — the Python methods mutate the stored
  records in place, so a failing call can still change the store, and the
  embedding has to keep the post-state even on failure.
-/

namespace SCMS

/-- The `ClaimStatus` enumeration (`SCMS_api.py`, lines 8–13). -/
inductive ClaimStatus where
  | submitted
  | underReview
  | approved
  | rejected
  | closed
deriving DecidableEq, Repr

/-- The `Policyholder` dataclass (`SCMS_api.py`, lines 15–21). -/
structure Policyholder where
  id : String
  name : String
  contact_number : String
  email : String
  date_of_birth : Int
deriving DecidableEq, Repr

/-- The `Policy` dataclass (`SCMS_api.py`, lines 23–31). -/
structure Policy where
  id : String
  policyholder_id : String
  type : String
  start_date : Int
  end_date : Int
  coverage_amount : ℚ
  premium : ℚ
deriving DecidableEq, Repr

/-- The `Claim` dataclass (`SCMS_api.py`, lines 33–41). -/
structure Claim where
  id : String
  policy_id : String
  date_of_incident : Int
  description : String
  amount : ℚ
  status : ClaimStatus
  date_submitted : Int
deriving DecidableEq, Repr

/-- Outcome of a raised exception: `ValidationError`, `BusinessRuleViolation`,
or an uncaught `KeyError`. -/
inductive Err where
  | validation
  | businessRule
  | keyError
deriving DecidableEq, Repr

/-! ## Association-list maps (the model of Python `dict`) -/

/-- The `d.get(k)` on a dict modelled as an association list: the value at the
first occurrence of the key. -/
def mapGet (m : List (String × α)) (k : String) : Option α :=
  match m with
  | [] => none
  | (k', v) :: t => if k' = k then some v else mapGet t k

/-- In-place mutation of the record stored at `k` (Python mutates the object
held by the dict): replace the value at the first occurrence of the key,
keeping its position. -/
def mapSet (m : List (String × α)) (k : String) (v : α) : List (String × α) :=
  match m with
  | [] => []
  | (k', v') :: t => if k' = k then (k', v) :: t else (k', v') :: mapSet t k v

/-- The `del d[k]`: remove every entry with the key (a dict has at most one). -/
def mapErase (m : List (String × α)) (k : String) : List (String × α) :=
  match m with
  | [] => []
  | (k', v) :: t => if k' = k then mapErase t k else (k', v) :: mapErase t k

/-- The keys of the map, in insertion order. -/
def mapKeys (m : List (String × α)) : List String :=
  m.map Prod.fst

/-! ## Validators (`SCMS_api.py`, lines 157–201)

The two format validators are Python regular expressions.  They are compiled
here by hand into scanning functions; the compilation is explained at each
definition, and the equivalence with a declarative shape is proved later
(theorems for claims C7 and C8).
-/

/-- The `headIsNonAt r`: `r` starts with a character other than `'@'`
(the trailing `[^@]+` of the email pattern needs one such character). -/
def headIsNonAt : List Char → Bool
  | d :: _ => decide (d ≠ '@')
  | [] => false

/-- Prefix match of `[^@]+\.[^@]+` against `r` — the part of the pattern
`[^@]+@[^@]+\.[^@]+` (`_validate_email`, line 190) that follows the `'@'`.
`re` backtracking semantics: the match succeeds iff some `'.'` occurs at an
index `k ≥ 1` such that everything before it is non-`'@'` and the next
character exists and is non-`'@'`.  The scan walks left to right over
non-`'@'` characters (`i` counts those already passed) and fires at the
first eligible dot; an `'@'` kills every later candidate, so scanning is
equivalent to the existential. -/
def emailDomainScan : Nat → List Char → Bool
  | _, [] => false
  | i, c :: rest =>
    if c = '@' then false
    else if 1 ≤ i ∧ c = '.' ∧ headIsNonAt rest then true
    else emailDomainScan (i + 1) rest

/-- The `re.match(r"[^@]+@[^@]+\.[^@]+", email)` as a Boolean.  `re.match`
anchors only at the start, so this is a *prefix* match.  The leading `[^@]+`
cannot cross an `'@'` and the literal `'@'` cannot match anything else, so
the split at the first `'@'` is forced: the local part is the maximal
`'@'`-free prefix and must be non-empty. -/
def email_matches (email : String) : Bool :=
  let cs := email.toList
  match cs.dropWhile (fun c => decide (c ≠ '@')) with
  | a :: r =>
    decide (a = '@') &&
      decide (cs.takeWhile (fun c => decide (c ≠ '@')) ≠ []) &&
      emailDomainScan 0 r
  | [] => false

/-- The `\d{9,15}` as a full match of `l`: between 9 and 15 digits.  (Python's
`\d` also covers non-ASCII decimal digits; the model restricts the character
set to ASCII, where `\d` is `Char.isDigit`.) -/
def phoneDigits (l : List Char) : Bool :=
  decide (9 ≤ l.length) && decide (l.length ≤ 15) && l.all (fun c => c.isDigit)

/-- Full match of `1?\d{9,15}` against `l`: a leading `'1'` can be consumed
by `1?` or counted among the digits, giving the two alternatives. -/
def phoneTail (l : List Char) : Bool :=
  match l with
  | c :: r => if c = '1' then phoneDigits (c :: r) || phoneDigits r
      else phoneDigits (c :: r)
  | [] => phoneDigits []

/-- Full match of `\\+?1?\\d{9,15}` against `cs`.  A leading `'+'` can only
be consumed by `\\+?` (it is not a digit and not `'1'`), so that step is
forced. -/
def phoneCore (cs : List Char) : Bool :=
  let afterPlus :=
    match cs with
    | c :: r => if c = '+' then r else cs
    | [] => cs
  phoneTail afterPlus

/-- The `re.match(r"^\+?1?\d{9,15}$", phone)` as a Boolean
(`_validate_phone_number`, line 194).  In Python `re`, `$` matches at the
end of the string *or just before a final newline*, so a single trailing
`'\n'` is tolerated. -/
def phone_matches (phone : String) : Bool :=
  let cs := phone.toList
  phoneCore cs ||
    (match cs.getLast? with
     | some c => decide (c = '\n') && phoneCore cs.dropLast
     | none => false)

/-- The `_validate_email` (lines 189–191): raises `ValidationError` iff the
regex does not match. -/
def _validate_email (email : String) : Option Err :=
  if email_matches email then none else some .validation

/-- The `_validate_phone_number` (lines 193–195). -/
def _validate_phone_number (phone : String) : Option Err :=
  if phone_matches phone then none else some .validation

/-- The `_validate_date_of_birth` (lines 197–201).  `datetime.now()` is passed
in as `now` (the two `now()` calls in the Python body are microseconds
apart and equal at day granularity). -/
def _validate_date_of_birth (now : Int) (date_of_birth : Int) : Option Err :=
  if now < date_of_birth then some .validation
  else if now - date_of_birth < 18 * 365 then some .businessRule
  else none

/-- The `_validate_policyholder` (lines 158–161): email, then phone, then
date of birth; first failure wins. -/
def _validate_policyholder (now : Int) (policyholder : Policyholder) : Option Err :=
  (_validate_email policyholder.email).orElse fun _ =>
  (_validate_phone_number policyholder.contact_number).orElse fun _ =>
  _validate_date_of_birth now policyholder.date_of_birth

/-! ## The engine (`ClaimsManagementSystem`, `SCMS_api.py` lines 49–201) -/

/-- The three mappings owned by `ClaimsManagementSystem.__init__`. -/
structure ClaimsManagementSystem where
  policyholders : List (String × Policyholder)
  policies : List (String × Policy)
  claims : List (String × Claim)
deriving DecidableEq, Repr

/-- The empty store (`__init__`). -/
def emptyCMS : ClaimsManagementSystem := ⟨[], [], []⟩

/-- Well-formedness every Python `dict` has by construction: no key occurs
twice in the association list. -/
def WF (s : ClaimsManagementSystem) : Prop :=
  (mapKeys s.policyholders).Nodup ∧ (mapKeys s.policies).Nodup ∧
    (mapKeys s.claims).Nodup

/-- The `_validate_policy` (lines 163–174).  Reads `self.policyholders`. -/
def _validate_policy (s : ClaimsManagementSystem) (policy : Policy) : Option Err :=
  match mapGet s.policyholders policy.policyholder_id with
  | none => some .validation
  | some policyholder =>
    if policy.end_date ≤ policy.start_date then some .validation
    else if policy.coverage_amount ≤ 0 then some .validation
    else if policy.premium ≤ 0 then some .validation
    else if policy.start_date - policyholder.date_of_birth < 18 * 365 then
      some .businessRule
    else none

/-- The `_validate_claim` (lines 176–187).  Reads `self.policies`. -/
def _validate_claim (s : ClaimsManagementSystem) (claim : Claim) : Option Err :=
  match mapGet s.policies claim.policy_id with
  | none => some .validation
  | some policy =>
    if claim.date_of_incident < policy.start_date ∨
        policy.end_date < claim.date_of_incident then some .validation
    else if claim.amount ≤ 0 ∨ policy.coverage_amount < claim.amount then
      some .validation
    else if claim.date_submitted < claim.date_of_incident then some .validation
    else if 30 < claim.date_submitted - claim.date_of_incident then
      some .businessRule
    else none

/-- Python truthiness of an `Optional[str]` argument: `if name:` runs the
branch only when the argument is present *and* non-empty. -/
def strProvided : Option String → Bool
  | some v => decide (v ≠ "")
  | none => false

/-- The `if arg: record.field = arg` for an `Optional[str]` field. -/
def applyStrField (cur : String) (arg : Option String) : String :=
  match arg with
  | some v => if v = "" then cur else v
  | none => cur

/-- The `create_policyholder` (lines 56–60): validate, then duplicate check,
then insert. -/
def create_policyholder (now : Int) (s : ClaimsManagementSystem)
    (policyholder : Policyholder) : Option Err × ClaimsManagementSystem :=
  match _validate_policyholder now policyholder with
  | some e => (some e, s)
  | none =>
    if (mapGet s.policyholders policyholder.id).isSome then (some .validation, s)
    else (none,
      { s with policyholders := s.policyholders ++ [(policyholder.id, policyholder)] })

/-- The `get_policyholder` (lines 62–63). -/
def get_policyholder (s : ClaimsManagementSystem) (policyholder_id : String) :
    Option Policyholder :=
  mapGet s.policyholders policyholder_id

/-- The `update_policyholder` (lines 65–81).  The Python method mutates the
stored object field by field, validating `contact_number`, `email` and
`date_of_birth` as it goes, so a failure mid-way leaves the earlier fields
already changed; the embedding returns the store as it stands at the point
of failure.  `datetime` arguments are always truthy, so `date_of_birth` is
applied whenever present. -/
def update_policyholder (now : Int) (s : ClaimsManagementSystem)
    (policyholder_id : String) (name contact_number email : Option String)
    (date_of_birth : Option Int) : Option Err × ClaimsManagementSystem :=
  match mapGet s.policyholders policyholder_id with
  | none => (some .validation, s)
  | some ph0 =>
    let store := fun (ph : Policyholder) =>
      { s with policyholders := mapSet s.policyholders policyholder_id ph }
    let ph1 := { ph0 with name := applyStrField ph0.name name }
    if strProvided contact_number ∧ ¬ phone_matches (contact_number.getD "") then
      (some .validation, store ph1)
    else
      let ph2 := { ph1 with contact_number := applyStrField ph1.contact_number contact_number }
      if strProvided email ∧ ¬ email_matches (email.getD "") then
        (some .validation, store ph2)
      else
        let ph3 := { ph2 with email := applyStrField ph2.email email }
        match date_of_birth with
        | some d =>
          match _validate_date_of_birth now d with
          | some e => (some e, store ph3)
          | none => (none, store { ph3 with date_of_birth := d })
        | none => (none, store ph3)

/-- The `delete_claim` (lines 152–155). -/
def delete_claim (s : ClaimsManagementSystem) (claim_id : String) :
    Option Err × ClaimsManagementSystem :=
  if (mapGet s.claims claim_id).isSome then
    (none, { s with claims := mapErase s.claims claim_id })
  else (some .validation, s)

/-- The `delete_policy` (lines 120–127): remove the policy, then delete every
claim whose `policy_id` matches, via `delete_claim`.  A `ValidationError`
raised by a nested `delete_claim` (impossible on a well-formed store) would
abort the loop, which the early-exit fold mirrors. -/
def delete_policy (s : ClaimsManagementSystem) (policy_id : String) :
    Option Err × ClaimsManagementSystem :=
  if (mapGet s.policies policy_id).isSome then
    let s1 := { s with policies := mapErase s.policies policy_id }
    let toDel := (s1.claims.filter
      (fun e => decide (e.2.policy_id = policy_id))).map Prod.fst
    toDel.foldl (fun acc claim_id =>
      match acc.1 with
      | some _ => acc
      | none => delete_claim acc.2 claim_id) (none, s1)
  else (some .validation, s)

/-- The `delete_policyholder` (lines 83–90): remove the policyholder, then
delete every policy whose `policyholder_id` matches, via `delete_policy`
(which cascades to claims). -/
def delete_policyholder (s : ClaimsManagementSystem) (policyholder_id : String) :
    Option Err × ClaimsManagementSystem :=
  if (mapGet s.policyholders policyholder_id).isSome then
    let s1 := { s with policyholders := mapErase s.policyholders policyholder_id }
    let toDel := (s1.policies.filter
      (fun e => decide (e.2.policyholder_id = policyholder_id))).map Prod.fst
    toDel.foldl (fun acc policy_id =>
      match acc.1 with
      | some _ => acc
      | none => delete_policy acc.2 policy_id) (none, s1)
  else (some .validation, s)

/-- The `create_policy` (lines 93–97): validate, then duplicate check, then
insert. -/
def create_policy (s : ClaimsManagementSystem) (policy : Policy) :
    Option Err × ClaimsManagementSystem :=
  match _validate_policy s policy with
  | some e => (some e, s)
  | none =>
    if (mapGet s.policies policy.id).isSome then (some .validation, s)
    else (none, { s with policies := s.policies ++ [(policy.id, policy)] })

/-- The `get_policy` (lines 99–100). -/
def get_policy (s : ClaimsManagementSystem) (policy_id : String) : Option Policy :=
  mapGet s.policies policy_id

/-- The record produced by the field-application block of `update_policy`
(lines 108–117): `type` is subject to string truthiness, dates are always
truthy, the two amounts are guarded by `is not None`. -/
def appliedPolicy (p0 : Policy) (type : Option String)
    (start_date end_date : Option Int) (coverage_amount premium : Option ℚ) :
    Policy :=
  { p0 with
    type := applyStrField p0.type type
    start_date := start_date.getD p0.start_date
    end_date := end_date.getD p0.end_date
    coverage_amount := coverage_amount.getD p0.coverage_amount
    premium := premium.getD p0.premium }

/-- The `update_policy` (lines 102–118): apply every provided field to the
stored object (none of these assignments can fail), then re-validate the
full record.  The mutations stay in the store even when the final
validation fails. -/
def update_policy (s : ClaimsManagementSystem) (policy_id : String)
    (type : Option String) (start_date end_date : Option Int)
    (coverage_amount premium : Option ℚ) : Option Err × ClaimsManagementSystem :=
  match mapGet s.policies policy_id with
  | none => (some .validation, s)
  | some p0 =>
    let p1 := appliedPolicy p0 type start_date end_date coverage_amount premium
    let s1 := { s with policies := mapSet s.policies policy_id p1 }
    match _validate_policy s1 p1 with
    | some e => (some e, s1)
    | none => (none, s1)

/-- The `create_claim` (lines 130–134): validate, then duplicate check, then
insert. -/
def create_claim (s : ClaimsManagementSystem) (claim : Claim) :
    Option Err × ClaimsManagementSystem :=
  match _validate_claim s claim with
  | some e => (some e, s)
  | none =>
    if (mapGet s.claims claim.id).isSome then (some .validation, s)
    else (none, { s with claims := s.claims ++ [(claim.id, claim)] })

/-- The `get_claim` (lines 136–137). -/
def get_claim (s : ClaimsManagementSystem) (claim_id : String) : Option Claim :=
  mapGet s.claims claim_id

/-- The record produced by the field-application block of `update_claim`
(lines 144–149): `description` under string truthiness, `amount` under
`is not None`, `status` always truthy when present. -/
def appliedClaim (c0 : Claim) (description : Option String) (amount : Option ℚ)
    (status : Option ClaimStatus) : Claim :=
  { c0 with
    description := applyStrField c0.description description
    amount := amount.getD c0.amount
    status := status.getD c0.status }

/-- The `update_claim` (lines 139–150): apply the provided fields, then
re-validate the full record against its policy.  No check of the current
status is made, and the mutations stay in the store even when validation
fails. -/
def update_claim (s : ClaimsManagementSystem) (claim_id : String)
    (description : Option String) (amount : Option ℚ)
    (status : Option ClaimStatus) : Option Err × ClaimsManagementSystem :=
  match mapGet s.claims claim_id with
  | none => (some .validation, s)
  | some c0 =>
    let c1 := appliedClaim c0 description amount status
    let s1 := { s with claims := mapSet s.claims claim_id c1 }
    match _validate_claim s1 c1 with
    | some e => (some e, s1)
    | none => (none, s1)

/-! ## The `SCMS_CRUD.py` variant

`SCMS_CRUD.py` holds an earlier engine whose `update_claim`
(lines 143–158) validates field by field and is the only place in the
repository with an explicit "cannot update a closed claim" guard.  Its
dataclasses differ (no `date_of_birth` on `Policyholder`, no `premium` on
`Policy`), so the variant gets its own types. -/

namespace CRUD

/-- The `Policyholder` dataclass (`SCMS_CRUD.py`, lines 15–20). -/
structure Policyholder where
  id : String
  name : String
  contact_number : String
  email : String
deriving DecidableEq, Repr

/-- The `Policy` dataclass (`SCMS_CRUD.py`, lines 22–29). -/
structure Policy where
  id : String
  policyholder_id : String
  type : String
  start_date : Int
  end_date : Int
  coverage_amount : ℚ
deriving DecidableEq, Repr

/-- The `Claim` dataclass (`SCMS_CRUD.py`, lines 31–39). -/
structure Claim where
  id : String
  policy_id : String
  date_of_incident : Int
  description : String
  amount : ℚ
  status : ClaimStatus
  date_submitted : Int
deriving DecidableEq, Repr

/-- The three mappings of the `SCMS_CRUD.py` engine. -/
structure ClaimsManagementSystem where
  policyholders : List (String × Policyholder)
  policies : List (String × Policy)
  claims : List (String × Claim)
deriving DecidableEq, Repr

/-- The `update_claim` (`SCMS_CRUD.py`, lines 143–158): `description` is applied
under string truthiness; a provided `amount` is checked against the claim's
policy (`self.policies[claim.policy_id]` — an uncaught `KeyError` if the
policy is gone) and applied; a provided `status` first hits
`if claim.status == ClaimStatus.CLOSED: raise`.  Mutations made before a
failure stay in the store. -/
def update_claim (s : ClaimsManagementSystem) (claim_id : String)
    (description : Option String) (amount : Option ℚ)
    (status : Option ClaimStatus) : Option Err × ClaimsManagementSystem :=
  match mapGet s.claims claim_id with
  | none => (some Err.validation, s)
  | some c0 =>
    let store := fun (c : Claim) =>
      { s with claims := mapSet s.claims claim_id c }
    let applyStatus := fun (c : Claim) =>
      match status with
      | some st =>
        if c.status = ClaimStatus.closed then (some Err.validation, store c)
        else (none, store { c with status := st })
      | none => (none, store c)
    let c1 := { c0 with description := applyStrField c0.description description }
    match amount with
    | some a =>
      match mapGet s.policies c1.policy_id with
      | none => (some Err.keyError, store c1)
      | some policy =>
        if a ≤ 0 ∨ policy.coverage_amount < a then (some Err.validation, store c1)
        else applyStatus { c1 with amount := a }
    | none => applyStatus c1

end CRUD

/-! ## Declarative shapes for the two format validators

`emailSpecShape` / `phoneSpecShape` transcribe the *specification's* wording
(§4.2; claims C7 and C8); they are compared against the code's matchers.
`emailAmendedShape` / `phoneAmendedShape` are declarative descriptions of
the languages the code actually accepts, proved equivalent to the scanning
matchers. -/

/-- The shape claimed by the spec for emails: a non-empty local part with no
further `'@'`, exactly one `'@'`, and a non-empty domain part (everything
after the `'@'`, so nothing may follow it) containing a dot. -/
def emailSpecShape (email : String) : Bool :=
  let cs := email.toList
  let l := cs.takeWhile (fun c => decide (c ≠ '@'))
  let rest := cs.dropWhile (fun c => decide (c ≠ '@'))
  match rest with
  | '@' :: dom =>
    decide (l ≠ []) && decide (dom ≠ []) && decide ('@' ∉ dom) &&
      decide ('.' ∈ dom)
  | _ => false

/-- The shape claimed by the spec for phone numbers: an optional leading
`"+1"` (as a unit) followed by 9–15 digits, nothing else. -/
def phoneSpecShape (phone : String) : Bool :=
  match phone.toList with
  | '+' :: '1' :: r => phoneDigits r
  | cs => phoneDigits cs

/-- The language `re.match(r"[^@]+@[^@]+\.[^@]+", ·)` actually accepts: a
non-empty `'@'`-free local part, `'@'`, a non-empty `'@'`-free middle, a
dot, one further non-`'@'` character — and then *arbitrary* trailing text
(further `'@'`s included), because `re.match` only anchors at the start. -/
def emailAmendedShape (email : String) : Prop :=
  ∃ (l m : List Char) (d : Char) (tl : List Char),
    email.toList = l ++ '@' :: (m ++ '.' :: d :: tl) ∧
    l ≠ [] ∧ (∀ c ∈ l, c ≠ '@') ∧
    m ≠ [] ∧ (∀ c ∈ m, c ≠ '@') ∧ d ≠ '@'

/-- The language `re.match(r"^\+?1?\d{9,15}$", ·)` actually accepts: after
peeling one optional trailing `'\n'` (Python's `$`) and one optional
leading `'+'`, either 9–15 digits, or `'1'` followed by 9–15 digits — the
`'+'` and the `'1'` are optional *independently*. -/
def phoneAmendedShape (phone : String) : Prop :=
  ∃ (t d : List Char),
    (phone.toList = t ∨ phone.toList = t ++ ['\n']) ∧
    (t = d ∨ t = '+' :: d) ∧
    ((∀ c ∈ d, c.isDigit) ∧ 9 ≤ d.length ∧ d.length ≤ 15 ∨
      ∃ d', d = '1' :: d' ∧ (∀ c ∈ d', c.isDigit) ∧
        9 ≤ d'.length ∧ d'.length ≤ 15)

/-! ## Operation alphabet and reachable states (for the integrity claim)

The read operations (`get_*`) do not touch the store, so the alphabet lists
the nine mutating operations.  `step` keeps the post-state of an operation
whether it succeeded or failed, exactly as the Python store persists across
raised exceptions. -/

/-- One mutating engine call, with its arguments.  Operations that call
`datetime.now()` carry the clock value as a `now` argument. -/
inductive Op where
  | createPolicyholder (now : Int) (policyholder : Policyholder)
  | updatePolicyholder (now : Int) (policyholder_id : String)
      (name contact_number email : Option String) (date_of_birth : Option Int)
  | deletePolicyholder (policyholder_id : String)
  | createPolicy (policy : Policy)
  | updatePolicy (policy_id : String) (type : Option String)
      (start_date end_date : Option Int) (coverage_amount premium : Option ℚ)
  | deletePolicy (policy_id : String)
  | createClaim (claim : Claim)
  | updateClaim (claim_id : String) (description : Option String)
      (amount : Option ℚ) (status : Option ClaimStatus)
  | deleteClaim (claim_id : String)

/-- Run one operation against the store. -/
def runOp (s : ClaimsManagementSystem) : Op → Option Err × ClaimsManagementSystem
  | .createPolicyholder now ph => create_policyholder now s ph
  | .updatePolicyholder now pid n c e d => update_policyholder now s pid n c e d
  | .deletePolicyholder pid => delete_policyholder s pid
  | .createPolicy p => create_policy s p
  | .updatePolicy pid ty sd ed cov prem => update_policy s pid ty sd ed cov prem
  | .deletePolicy pid => delete_policy s pid
  | .createClaim c => create_claim s c
  | .updateClaim cid d a st => update_claim s cid d a st
  | .deleteClaim cid => delete_claim s cid

/-- The store after an operation, successful or failed. -/
def step (s : ClaimsManagementSystem) (op : Op) : ClaimsManagementSystem :=
  (runOp s op).2

/-- States produced from the empty store by some sequence of engine
operations. -/
inductive Reachable : ClaimsManagementSystem → Prop
  | empty : Reachable emptyCMS
  | step (s : Op) : ∀ {t}, Reachable t → Reachable (SCMS.step t s)

/-- Referential integrity: every stored policy's `policyholder_id` is a key
of the policyholders mapping, and every stored claim's `policy_id` is a key
of the policies mapping. -/
def Integrity (s : ClaimsManagementSystem) : Prop :=
  (∀ k p, mapGet s.policies k = some p →
    p.policyholder_id ∈ mapKeys s.policyholders) ∧
  (∀ k c, mapGet s.claims k = some c → c.policy_id ∈ mapKeys s.policies)

/-! ## Concrete sample data (witnesses and counterexamples)

Day numbers count days since 1970-01-01: `1980-01-01 = 3653`,
`2023-01-01 = 19358`, `2023-06-01 = 19509`, `2023-06-15 = 19523`,
`2024-01-01 = 19723`. -/

/-- The spec's §8 sample policyholder `PH001`. -/
def samplePolicyholder : Policyholder :=
  ⟨"PH001", "John Doe", "+1234567890", "john@example.com", 3653⟩

/-- The spec's §8 sample policy `POL001`. -/
def samplePolicy : Policy :=
  ⟨"POL001", "PH001", "Auto", 19358, 19723, 50000, 1000⟩

/-- The spec's §8 sample claim `CL001`. -/
def sampleClaim : Claim :=
  ⟨"CL001", "POL001", 19509, "Car accident", 5000, .submitted, 19523⟩

/-- A store holding `PH001` and `POL001`. -/
def sampleStore : ClaimsManagementSystem :=
  ⟨[("PH001", samplePolicyholder)], [("POL001", samplePolicy)], []⟩

/-- The `sampleStore` plus the claim `CL001`, with a given status. -/
def sampleStoreWithClaim (st : ClaimStatus) : ClaimsManagementSystem :=
  ⟨[("PH001", samplePolicyholder)], [("POL001", samplePolicy)],
    [("CL001", { sampleClaim with status := st })]⟩

/-- A claim whose amount equals the sample policy's coverage exactly. -/
def coverageEqClaim : Claim :=
  ⟨"CL9", "POL001", 19509, "Total loss", 50000, .submitted, 19523⟩

/-- A claim whose amount strictly exceeds the sample policy's coverage. -/
def coverageHighClaim : Claim :=
  ⟨"CL9", "POL001", 19509, "Too big", 60000, .submitted, 19523⟩

/-- A claim submitted exactly 30 days after the incident. -/
def thirtyDayClaim : Claim :=
  ⟨"CL9", "POL001", 19509, "On time", 5000, .submitted, 19539⟩

/-- A claim submitted 31 days after the incident. -/
def lateClaim : Claim :=
  ⟨"CL9", "POL001", 19509, "Late", 5000, .submitted, 19540⟩

/-- A second policy for the sample policyholder (fresh id `POL2`). -/
def secondPolicy : Policy :=
  ⟨"POL2", "PH001", "Home", 19358, 19723, 60000, 1200⟩

/-- A policyholder born too recently (day 13000 = 1995-08-04): at policy
start 19358 the difference is 6358 days, below 18×365 = 6570. -/
def youngPolicyholder : Policyholder :=
  ⟨"PH2", "Kid", "+1234567890", "kid@example.com", 13000⟩

/-- A store holding only the young policyholder. -/
def youngStore : ClaimsManagementSystem :=
  ⟨[("PH2", youngPolicyholder)], [], []⟩

/-- A policy for the young policyholder. -/
def youngPolicy : Policy :=
  ⟨"POL3", "PH2", "Auto", 19358, 19723, 50000, 1000⟩

/-- The record `update_policy sampleStore "POL001" (start_date := 10000)`
would validate: start 10000 is 6347 days after the holder's birth. -/
def earlyStartPolicy : Policy :=
  ⟨"POL001", "PH001", "Auto", 10000, 19723, 50000, 1000⟩

/-- A store in which `PH001` owns a *second* policy besides `POL001`. -/
def extraPolicyStore : ClaimsManagementSystem :=
  ⟨[("PH001", samplePolicyholder)],
   [("POL001", samplePolicy), ("POL2", secondPolicy)],
   [("CL001", sampleClaim)]⟩

/-- A `SCMS_CRUD.py`-variant policy and Closed claim. -/
def crudPolicy : CRUD.Policy := ⟨"POL001", "PH001", "Auto", 19358, 19723, 50000⟩

/-- A Closed claim for the CRUD-variant store. -/
def crudClosedClaim : CRUD.Claim :=
  ⟨"CL001", "POL001", 19509, "Car accident", 5000, .closed, 19523⟩

/-- A CRUD-variant store holding `POL001` and the Closed `CL001`. -/
def crudStore : CRUD.ClaimsManagementSystem :=
  ⟨[], [("POL001", crudPolicy)], [("CL001", crudClosedClaim)]⟩

/-! ## Lemmas about the map primitives -/

theorem mapGet_nil (k : String) : mapGet ([] : List (String × α)) k = none := rfl

theorem mapGet_append (m m' : List (String × α)) (k : String) :
    mapGet (m ++ m') k = (mapGet m k).orElse (fun _ => mapGet m' k) := by
  induction m with
  | nil => simp [mapGet, Option.orElse]
  | cons e t ih =>
    obtain ⟨k', v⟩ := e
    by_cases h : k' = k <;> simp [mapGet, h, ih, Option.orElse]

theorem mapGet_eq_none_iff (m : List (String × α)) (k : String) :
    mapGet m k = none ↔ k ∉ mapKeys m := by
  induction m with
  | nil => simp [mapGet, mapKeys]
  | cons e t ih =>
    obtain ⟨k', v⟩ := e
    by_cases h : k' = k
    · subst h
      simp [mapGet, mapKeys]
    · have h' : k ≠ k' := fun hh => h hh.symm
      simp [mapGet, mapKeys, h, ih, h']

theorem mapGet_isSome_iff (m : List (String × α)) (k : String) :
    (mapGet m k).isSome ↔ k ∈ mapKeys m := by
  constructor
  · intro hs
    by_contra hk
    rw [← mapGet_eq_none_iff] at hk
    simp [hk] at hs
  · intro hk
    cases hm : mapGet m k with
    | none => exact absurd hk ((mapGet_eq_none_iff m k).1 hm)
    | some v => simp

theorem mapGet_erase (m : List (String × α)) (k k' : String) :
    mapGet (mapErase m k') k = if k = k' then none else mapGet m k := by
  induction m with
  | nil =>
    by_cases h : k = k' <;> simp [mapErase, mapGet, h]
  | cons e t ih =>
    obtain ⟨ek, ev⟩ := e
    by_cases hek : ek = k'
    · subst hek
      rw [show mapErase ((ek, ev) :: t) ek = mapErase t ek by simp [mapErase], ih]
      by_cases hk : k = ek
      · simp [hk]
      · have hne : ¬ ek = k := fun hh => hk hh.symm
        simp [mapGet, hk, hne]
    · rw [show mapErase ((ek, ev) :: t) k' = (ek, ev) :: mapErase t k' by
        simp [mapErase, hek]]
      by_cases hk : ek = k
      · subst hk
        have hne : ¬ ek = k' := hek
        simp [mapGet, hne]
      · simp [mapGet, hk, ih]

theorem mapGet_set_ne (m : List (String × α)) (k k' : String) (v : α) (h : k ≠ k') :
    mapGet (mapSet m k' v) k = mapGet m k := by
  induction m with
  | nil => simp [mapSet]
  | cons e t ih =>
    obtain ⟨ek, ev⟩ := e
    by_cases hek : ek = k'
    · subst hek
      have hk : ¬ ek = k := fun hh => h hh.symm
      simp [mapSet, mapGet, hk]
    · by_cases hk : ek = k
      · subst hk
        simp [mapSet, mapGet, hek]
      · simp [mapSet, mapGet, hek, hk, ih]

theorem mapGet_set_self (m : List (String × α)) (k : String) (v : α) :
    mapGet (mapSet m k v) k = (mapGet m k).map (fun _ => v) := by
  induction m with
  | nil => simp [mapSet, mapGet]
  | cons e t ih =>
    obtain ⟨ek, ev⟩ := e
    by_cases hek : ek = k <;> simp [mapSet, mapGet, hek, ih]

theorem mapSet_same (m : List (String × α)) (k : String) (v : α)
    (h : mapGet m k = some v) : mapSet m k v = m := by
  induction m with
  | nil => simp [mapSet]
  | cons e t ih =>
    obtain ⟨ek, ev⟩ := e
    by_cases hek : ek = k
    · subst hek
      simp [mapGet] at h
      simp [mapSet, h]
    · simp [mapGet, hek] at h
      simp [mapSet, hek, ih h]

theorem mapKeys_set (m : List (String × α)) (k : String) (v : α) :
    mapKeys (mapSet m k v) = mapKeys m := by
  induction m with
  | nil => rfl
  | cons e t ih =>
    obtain ⟨ek, ev⟩ := e
    by_cases hek : ek = k
    · simp [mapSet, mapKeys, hek]
    · simp only [mapSet, if_neg hek, mapKeys, List.map_cons]
      simpa [mapKeys] using ih

theorem mem_mapSet (m : List (String × α)) (k : String) (v : α) (x : String × α)
    (h : x ∈ mapSet m k v) : x ∈ m ∨ x = (k, v) := by
  induction m with
  | nil => simp [mapSet] at h
  | cons e t ih =>
    obtain ⟨ek, ev⟩ := e
    by_cases hek : ek = k
    · subst hek
      simp [mapSet] at h
      rcases h with h | h
      · right; simp [h]
      · left; simp [h]
    · simp [mapSet, hek] at h
      rcases h with h | h
      · left; simp [h]
      · rcases ih h with h' | h'
        · left; simp [h']
        · right; exact h'

theorem mapGet_eq_some_mem (m : List (String × α)) (k : String) (v : α)
    (h : mapGet m k = some v) : (k, v) ∈ m := by
  induction m with
  | nil => simp [mapGet] at h
  | cons e t ih =>
    obtain ⟨ek, ev⟩ := e
    by_cases hek : ek = k
    · subst hek
      simp [mapGet] at h
      simp [h]
    · simp [mapGet, hek] at h
      simp [ih h]


/-! ## Claim C4: coverage boundary of `create_claim` -/

/-- C4: for every state containing the referenced policy and every claim
input passing all other checks, `create_claim` fails when the claim's
amount strictly exceeds the policy's `coverage_amount`, and succeeds —
inserting the claim — when the amount equals the coverage exactly: the
bound is inclusive. -/
theorem create_claim_coverage_boundary
    (s : ClaimsManagementSystem) (c : Claim) (pol : Policy)
    (hpol : mapGet s.policies c.policy_id = some pol)
    (hinc1 : pol.start_date ≤ c.date_of_incident)
    (hinc2 : c.date_of_incident ≤ pol.end_date)
    (hpos : 0 < c.amount)
    (hord : c.date_of_incident ≤ c.date_submitted)
    (hlate : c.date_submitted - c.date_of_incident ≤ 30)
    (hfresh : mapGet s.claims c.id = none) :
    (pol.coverage_amount < c.amount →
      create_claim s c = (some Err.validation, s)) ∧
    (c.amount = pol.coverage_amount →
      create_claim s c = (none, { s with claims := s.claims ++ [(c.id, c)] })) := by
  have h1 : ¬ (c.date_of_incident < pol.start_date ∨
      pol.end_date < c.date_of_incident) := by
    push_neg
    exact ⟨hinc1, hinc2⟩
  constructor
  · intro hgt
    simp only [create_claim, _validate_claim, hpol, if_neg h1, if_pos (Or.inr hgt)]
  · intro heq
    have h2 : ¬ (c.amount ≤ 0 ∨ pol.coverage_amount < c.amount) := by
      push_neg
      exact ⟨hpos, heq.le⟩
    have h3 : ¬ c.date_submitted < c.date_of_incident := not_lt.2 hord
    have h4 : ¬ 30 < c.date_submitted - c.date_of_incident := not_lt.2 hlate
    simp only [create_claim, _validate_claim, hpol, if_neg h1, if_neg h2, if_neg h3,
      if_neg h4, hfresh, Option.isSome_none, Bool.false_eq_true, if_false]

/-- Witness for C4 at the spec's §8 data: amount 60000 against coverage
50000 fails; amount 50000 (== coverage) inserts. -/
theorem create_claim_coverage_boundary_witness :
    create_claim sampleStore coverageHighClaim = (some Err.validation, sampleStore) ∧
    create_claim sampleStore coverageEqClaim =
      (none, { sampleStore with
        claims := sampleStore.claims ++ [("CL9", coverageEqClaim)] }) :=
  ⟨(create_claim_coverage_boundary sampleStore coverageHighClaim samplePolicy
      (by decide) (by decide) (by decide) (by decide) (by decide) (by decide)
      (by decide)).1 (by decide),
   (create_claim_coverage_boundary sampleStore coverageEqClaim samplePolicy
      (by decide) (by decide) (by decide) (by decide) (by decide) (by decide)
      (by decide)).2 (by decide)⟩

/-! ## Claim C5: thirty-day submission boundary of `create_claim` -/

/-- C5: for every claim input passing all other checks against an existing
policy, `create_claim` fails with `BusinessRuleViolation` when
`date_submitted − date_of_incident` exceeds 30 days, and succeeds when the
difference is exactly 30 days. -/
theorem create_claim_thirty_day_boundary
    (s : ClaimsManagementSystem) (c : Claim) (pol : Policy)
    (hpol : mapGet s.policies c.policy_id = some pol)
    (hinc1 : pol.start_date ≤ c.date_of_incident)
    (hinc2 : c.date_of_incident ≤ pol.end_date)
    (hpos : 0 < c.amount)
    (hcov : c.amount ≤ pol.coverage_amount)
    (hord : c.date_of_incident ≤ c.date_submitted)
    (hfresh : mapGet s.claims c.id = none) :
    (30 < c.date_submitted - c.date_of_incident →
      create_claim s c = (some Err.businessRule, s)) ∧
    (c.date_submitted - c.date_of_incident = 30 →
      create_claim s c = (none, { s with claims := s.claims ++ [(c.id, c)] })) := by
  have h1 : ¬ (c.date_of_incident < pol.start_date ∨
      pol.end_date < c.date_of_incident) := by
    push_neg
    exact ⟨hinc1, hinc2⟩
  have h2 : ¬ (c.amount ≤ 0 ∨ pol.coverage_amount < c.amount) := by
    push_neg
    exact ⟨hpos, hcov⟩
  have h3 : ¬ c.date_submitted < c.date_of_incident := not_lt.2 hord
  constructor
  · intro hgt
    simp only [create_claim, _validate_claim, hpol, if_neg h1, if_neg h2, if_neg h3,
      if_pos hgt]
  · intro heq
    have h4 : ¬ 30 < c.date_submitted - c.date_of_incident := by omega
    simp only [create_claim, _validate_claim, hpol, if_neg h1, if_neg h2, if_neg h3,
      if_neg h4, hfresh, Option.isSome_none, Bool.false_eq_true, if_false]

/-- Witness for C5: 31 days fails with the business-rule error; exactly 30
days inserts. -/
theorem create_claim_thirty_day_boundary_witness :
    create_claim sampleStore lateClaim = (some Err.businessRule, sampleStore) ∧
    create_claim sampleStore thirtyDayClaim =
      (none, { sampleStore with
        claims := sampleStore.claims ++ [("CL9", thirtyDayClaim)] }) :=
  ⟨(create_claim_thirty_day_boundary sampleStore lateClaim samplePolicy
      (by decide) (by decide) (by decide) (by decide) (by decide) (by decide)
      (by decide)).1 (by decide),
   (create_claim_thirty_day_boundary sampleStore thirtyDayClaim samplePolicy
      (by decide) (by decide) (by decide) (by decide) (by decide) (by decide)
      (by decide)).2 (by decide)⟩

/-! ## Claim C6: the 18-years (18×365 days) age rule -/

/-- C6: with the policyholder present and the other checks passing,
`create_policy` fails with `BusinessRuleViolation` exactly when
`start_date − date_of_birth < 18×365` days, and succeeds when the
difference is at least `18×365` days; `update_policy`'s re-validation
enforces the same rule on the record with the provided fields applied. -/
theorem policy_age_rule
    (s : ClaimsManagementSystem) (p : Policy) (ph : Policyholder)
    (hph : mapGet s.policyholders p.policyholder_id = some ph)
    (hdates : p.start_date < p.end_date)
    (hcov : 0 < p.coverage_amount) (hprem : 0 < p.premium) :
    ((p.start_date - ph.date_of_birth < 18 * 365 →
        create_policy s p = (some Err.businessRule, s)) ∧
      (18 * 365 ≤ p.start_date - ph.date_of_birth →
        mapGet s.policies p.id = none →
        create_policy s p =
          (none, { s with policies := s.policies ++ [(p.id, p)] }))) ∧
    (∀ (policy_id : String) (type : Option String) (sd ed : Option Int)
        (cov prem : Option ℚ) (p0 : Policy),
      mapGet s.policies policy_id = some p0 →
      appliedPolicy p0 type sd ed cov prem = p →
      ((update_policy s policy_id type sd ed cov prem).1 = some Err.businessRule ↔
        p.start_date - ph.date_of_birth < 18 * 365)) := by
  have h1 : ¬ p.end_date ≤ p.start_date := not_le.2 hdates
  have h2 : ¬ p.coverage_amount ≤ 0 := not_le.2 hcov
  have h3 : ¬ p.premium ≤ 0 := not_le.2 hprem
  refine ⟨⟨fun hage => ?_, fun hage hfresh => ?_⟩,
    fun policy_id type sd ed cov prem p0 hp0 happ => ?_⟩
  · simp only [create_policy, _validate_policy, hph, if_neg h1, if_neg h2, if_neg h3,
      if_pos hage]
  · have h4 : ¬ p.start_date - ph.date_of_birth < 18 * 365 := not_lt.2 hage
    simp only [create_policy, _validate_policy, hph, if_neg h1, if_neg h2, if_neg h3,
      if_neg h4, hfresh, Option.isSome_none, Bool.false_eq_true, if_false]
  · by_cases hage : p.start_date - ph.date_of_birth < 18 * 365
    · simp only [update_policy, hp0, happ, _validate_policy, hph, if_neg h1,
        if_neg h2, if_neg h3, if_pos hage]
      exact ⟨fun _ => by omega, fun _ => trivial⟩
    · simp only [update_policy, hp0, happ, _validate_policy, hph, if_neg h1,
        if_neg h2, if_neg h3, if_neg hage]
      exact ⟨fun h => by simp at h, fun h => absurd h (by omega)⟩

/-- Witness for C6: creating `youngPolicy` (age 6358 days) fails with the
business-rule error; creating `secondPolicy` (age 15705 days) inserts; and
`update_policy` moving `POL001`'s start to day 10000 (age 6347 days)
reports the business-rule error. -/
theorem policy_age_rule_witness :
    create_policy youngStore youngPolicy = (some Err.businessRule, youngStore) ∧
    create_policy sampleStore secondPolicy =
      (none, { sampleStore with
        policies := sampleStore.policies ++ [("POL2", secondPolicy)] }) ∧
    (update_policy sampleStore "POL001" none (some 10000) none none none).1 =
      some Err.businessRule :=
  ⟨(policy_age_rule youngStore youngPolicy youngPolicyholder
      (by decide) (by decide) (by decide) (by decide)).1.1 (by decide),
   (policy_age_rule sampleStore secondPolicy samplePolicyholder
      (by decide) (by decide) (by decide) (by decide)).1.2 (by decide) (by decide),
   ((policy_age_rule sampleStore earlyStartPolicy samplePolicyholder
      (by decide) (by decide) (by decide) (by decide)).2 "POL001" none (some 10000)
      none none none samplePolicy (by decide) (by decide)).2 (by decide)⟩

/-! ## Claims C7 and C8: the format validators -/

theorem emailDomainScan_sound (i : Nat) (r : List Char)
    (h : emailDomainScan i r = true) :
    ∃ (m : List Char) (d : Char) (tl : List Char),
      r = m ++ '.' :: d :: tl ∧ (∀ c ∈ m, c ≠ '@') ∧ d ≠ '@' ∧
        1 ≤ i + m.length := by
  induction r generalizing i with
  | nil => simp [emailDomainScan] at h
  | cons c rest ih =>
    by_cases hc : c = '@'
    · simp [emailDomainScan, hc] at h
    · by_cases hcond : 1 ≤ i ∧ c = '.' ∧ headIsNonAt rest = true
      · obtain ⟨hi, hdot, hhead⟩ := hcond
        cases rest with
        | nil => simp [headIsNonAt] at hhead
        | cons d tl =>
          refine ⟨[], d, tl, ?_, by simp, ?_, by simpa using hi⟩
          · simp [hdot]
          · simpa [headIsNonAt] using hhead
      · have h' : emailDomainScan (i + 1) rest = true := by
          rw [emailDomainScan, if_neg hc, if_neg ?_] at h
          · exact h
          · simpa using hcond
        obtain ⟨m, d, tl, hr, hm, hd, hlen⟩ := ih (i + 1) h'
        refine ⟨c :: m, d, tl, by simp [hr], ?_, hd, ?_⟩
        · intro x hx
          rcases List.mem_cons.1 hx with hx | hx
          · exact hx ▸ hc
          · exact hm x hx
        · simp only [List.length_cons]
          omega

theorem emailDomainScan_complete (i : Nat) (m : List Char) (d : Char)
    (tl : List Char) (hm : ∀ c ∈ m, c ≠ '@') (hd : d ≠ '@')
    (hlen : 1 ≤ i + m.length) :
    emailDomainScan i (m ++ '.' :: d :: tl) = true := by
  induction m generalizing i with
  | nil =>
    have hi : 1 ≤ i := by simpa using hlen
    have hdot : ¬ ('.' : Char) = '@' := by decide
    simp [emailDomainScan, hdot, headIsNonAt, hd, hi]
  | cons c m' ih =>
    have hc : c ≠ '@' := hm c (by simp)
    by_cases hcond : 1 ≤ i ∧ c = '.' ∧ headIsNonAt (m' ++ '.' :: d :: tl) = true
    · simp only [List.cons_append, emailDomainScan, if_neg hc]
      rw [if_pos (by simpa using hcond)]
    · simp only [List.cons_append, emailDomainScan, if_neg hc]
      rw [if_neg (by simpa using hcond)]
      exact ih (i + 1) (fun x hx => hm x (by simp [hx])) (by
        simp only [List.length_cons] at hlen ⊢
        omega)
theorem takeWhile_dropWhile_at (l : List Char) (r : List Char)
    (hl : ∀ c ∈ l, c ≠ '@') :
    (l ++ '@' :: r).takeWhile (fun c => decide (c ≠ '@')) = l ∧
    (l ++ '@' :: r).dropWhile (fun c => decide (c ≠ '@')) = '@' :: r := by
  induction l with
  | nil => simp [List.takeWhile, List.dropWhile]
  | cons c t ih =>
    have hc : c ≠ '@' := hl c (by simp)
    obtain ⟨h1, h2⟩ := ih (fun x hx => hl x (by simp [hx]))
    constructor
    · rw [List.cons_append, List.takeWhile_cons, if_pos (by simpa using hc), h1]
    · rw [List.cons_append, List.dropWhile_cons, if_pos (by simpa using hc), h2]

/-- The email matcher accepts exactly the strings of `emailAmendedShape`. -/
theorem email_matches_iff (email : String) :
    email_matches email = true ↔ emailAmendedShape email := by
  constructor
  · intro hm
    simp only [email_matches] at hm
    cases hrest : email.toList.dropWhile (fun c => decide (c ≠ '@')) with
    | nil => rw [hrest] at hm; simp at hm
    | cons a r =>
      rw [hrest] at hm
      simp only [Bool.and_eq_true, decide_eq_true_eq] at hm
      obtain ⟨⟨ha, hne⟩, hscan⟩ := hm
      obtain ⟨m, d, tl, hr, hmat, hd, hmlen⟩ := emailDomainScan_sound 0 r hscan
      have hmne : m ≠ [] := by
        cases m with
        | nil => simp at hmlen
        | cons _ _ => simp
      refine ⟨email.toList.takeWhile (fun c => decide (c ≠ '@')), m, d, tl,
        ?_, hne, ?_, hmne, hmat, hd⟩
      · conv_lhs => rw [← List.takeWhile_append_dropWhile
          (fun c => decide (c ≠ '@')) email.toList]
        rw [hrest, ha, hr]
      · intro x hx
        simpa using List.mem_takeWhile_imp hx
  · rintro ⟨l, m, d, tl, heq, hlne, hlat, hmne, hmat, hd⟩
    obtain ⟨h1, h2⟩ := takeWhile_dropWhile_at l (m ++ '.' :: d :: tl) hlat
    simp only [email_matches, heq, h2, h1]
    simp only [Bool.and_eq_true, decide_eq_true_eq]
    refine ⟨⟨by trivial, hlne⟩, emailDomainScan_complete 0 m d tl hmat hd ?_⟩
    cases m with
    | nil => exact absurd rfl hmne
    | cons _ _ => simp

theorem phoneDigits_iff (l : List Char) :
    phoneDigits l = true ↔
      (∀ c ∈ l, c.isDigit) ∧ 9 ≤ l.length ∧ l.length ≤ 15 := by
  simp only [phoneDigits, Bool.and_eq_true, decide_eq_true_eq, List.all_eq_true]
  constructor
  · rintro ⟨⟨h1, h2⟩, h3⟩
    exact ⟨fun c hc => by simpa using h3 c hc, h1, h2⟩
  · rintro ⟨h3, h1, h2⟩
    exact ⟨⟨h1, h2⟩, fun c hc => by simpa using h3 c hc⟩

theorem phoneTail_iff (l : List Char) :
    phoneTail l = true ↔
      (phoneDigits l = true ∨ ∃ d', l = '1' :: d' ∧ phoneDigits d' = true) := by
  rcases l with _ | ⟨c, r⟩
  · rw [phoneTail]
    constructor
    · intro h
      exact Or.inl h
    · rintro (h | ⟨d', hd', h⟩)
      · exact h
      · exact absurd hd' (by simp)
  · rw [phoneTail]
    by_cases hc : c = '1'
    · subst hc
      rw [if_pos rfl, Bool.or_eq_true]
      constructor
      · rintro (h | h)
        · exact Or.inl h
        · exact Or.inr ⟨r, rfl, h⟩
      · rintro (h | ⟨d', hd', h⟩)
        · exact Or.inl h
        · injection hd' with h1 h2
          exact Or.inr (by rw [h2]; exact h)
    · rw [if_neg hc]
      constructor
      · intro h
        exact Or.inl h
      · rintro (h | ⟨d', hd', h⟩)
        · exact h
        · injection hd' with h1 h2
          exact absurd h1 hc

theorem phoneCore_iff (cs : List Char) :
    phoneCore cs = true ↔
      ∃ d, (cs = d ∨ cs = '+' :: d) ∧
        ((∀ c ∈ d, c.isDigit) ∧ 9 ≤ d.length ∧ d.length ≤ 15 ∨
          ∃ d', d = '1' :: d' ∧ (∀ c ∈ d', c.isDigit) ∧ 9 ≤ d'.length ∧
            d'.length ≤ 15) := by
  rcases cs with _ | ⟨c, r⟩
  · have h0 : phoneCore [] = false := by simp [phoneCore, phoneTail, phoneDigits]
    rw [h0]
    simp only [Bool.false_eq_true, false_iff]
    rintro ⟨d, hd | hd, hcond⟩
    · subst hd
      rcases hcond with ⟨_, h9, _⟩ | ⟨d', hd', _⟩
      · simp at h9
      · exact absurd hd' (by simp)
    · exact absurd hd (by simp)
  · by_cases hplus : c = '+'
    · subst hplus
      have hcore : phoneCore ('+' :: r) = phoneTail r := by
        simp [phoneCore]
      rw [hcore, phoneTail_iff]
      constructor
      · rintro (h | ⟨d', hd', h⟩)
        · exact ⟨r, Or.inr rfl, Or.inl ((phoneDigits_iff r).1 h)⟩
        · exact ⟨r, Or.inr rfl, Or.inr ⟨d', hd', (phoneDigits_iff d').1 h⟩⟩
      · rintro ⟨d, hd | hd, hcond⟩
        · subst hd
          rcases hcond with ⟨hdig, h9, h15⟩ | ⟨d', hd', hdig, h9, h15⟩
          · have h := hdig '+' (by simp)
            exact absurd h (by decide)
          · injection hd' with h1 h2
            exact absurd h1 (by decide)
        · injection hd with h1 h2
          subst h2
          rcases hcond with h | ⟨d', hd', h⟩
          · exact Or.inl ((phoneDigits_iff _).2 h)
          · exact Or.inr ⟨d', hd', (phoneDigits_iff _).2 h⟩
    · have hcore : phoneCore (c :: r) = phoneTail (c :: r) := by
        simp [phoneCore, hplus]
      rw [hcore, phoneTail_iff]
      constructor
      · rintro (h | ⟨d', hd', h⟩)
        · exact ⟨c :: r, Or.inl rfl, Or.inl ((phoneDigits_iff _).1 h)⟩
        · exact ⟨c :: r, Or.inl rfl, Or.inr ⟨d', hd', (phoneDigits_iff _).1 h⟩⟩
      · rintro ⟨d, hd | hd, hcond⟩
        · subst hd
          rcases hcond with h | ⟨d', hd', h⟩
          · exact Or.inl ((phoneDigits_iff _).2 h)
          · exact Or.inr ⟨d', hd', (phoneDigits_iff _).2 h⟩
        · injection hd with h1 h2
          exact absurd h1 hplus

/-- The phone matcher accepts exactly the strings of `phoneAmendedShape`. -/
theorem phone_matches_iff (phone : String) :
    phone_matches phone = true ↔ phoneAmendedShape phone := by
  simp only [phone_matches, Bool.or_eq_true]
  constructor
  · rintro (h | h)
    · obtain ⟨d, hd, hcond⟩ := (phoneCore_iff _).1 h
      exact ⟨phone.toList, d, Or.inl rfl, hd, hcond⟩
    · cases hlast : phone.toList.getLast? with
      | none => rw [hlast] at h; simp at h
      | some a =>
        rw [hlast] at h
        simp only [Bool.and_eq_true, decide_eq_true_eq] at h
        obtain ⟨ha, hcore⟩ := h
        obtain ⟨d, hd, hcond⟩ := (phoneCore_iff _).1 hcore
        refine ⟨phone.toList.dropLast, d, Or.inr ?_, hd, hcond⟩
        have hne : phone.toList ≠ [] := by
          intro h0
          rw [h0] at hlast
          simp at hlast
        rw [List.getLast?_eq_getLast _ hne] at hlast
        injection hlast with hlast'
        conv_lhs => rw [← List.dropLast_append_getLast hne]
        rw [hlast', ha]
  · rintro ⟨t, d, ht, hd, hcond⟩
    rcases ht with ht | ht
    · exact Or.inl (ht ▸ (phoneCore_iff t).2 ⟨d, hd, hcond⟩)
    · right
      rw [ht, List.getLast?_concat, List.dropLast_concat]
      simp only [Bool.and_eq_true, decide_eq_true_eq]
      exact ⟨by trivial, (phoneCore_iff t).2 ⟨d, hd, hcond⟩⟩

/-- C7 counterexample: the validator accepts `"a@b.c@d"` — a string with a
second `'@'` and text after the domain — which the claimed shape
`local@domain.tld` excludes. -/
theorem validate_email_spec_counterexample :
    _validate_email "a@b.c@d" = none ∧ emailSpecShape "a@b.c@d" = false := by
  constructor
  · decide
  · decide

/-- C7 (amended): the email validator accepts a string iff it *starts
with* `local@middle.x` — a non-empty `'@'`-free local part, one `'@'`, a
non-empty `'@'`-free run, a dot and one further non-`'@'` character —
with arbitrary trailing text allowed (`re.match` anchors only at the
start); every other string is rejected with the invalid-format error. -/
theorem validate_email_shape (email : String) :
    (_validate_email email = none ↔ emailAmendedShape email) ∧
    (_validate_email email = some Err.validation ↔ ¬ emailAmendedShape email) := by
  have h := email_matches_iff email
  by_cases hm : email_matches email
  · simp [_validate_email, hm, h.1 hm]
  · have hs : ¬ emailAmendedShape email := fun hsh => hm (h.2 hsh)
    simp [_validate_email, hm, hs]

/-- Witness for the amended C7 at a well-formed and a malformed input. -/
theorem validate_email_shape_witness :
    emailAmendedShape "john@example.com" ∧
    _validate_email "plainaddress" = some Err.validation :=
  ⟨(validate_email_shape "john@example.com").1.mp (by decide),
   (validate_email_shape "plainaddress").2.mpr (fun hsh =>
     absurd ((validate_email_shape "plainaddress").1.mpr hsh) (by decide))⟩

/-- C8 counterexample: the validator accepts `"+234567890"` — a `'+'` *not*
followed by `'1'`, then nine digits — which the claimed shape (optional
`"+1"` as a unit, then 9–15 digits) excludes. -/
theorem validate_phone_spec_counterexample :
    _validate_phone_number "+234567890" = none ∧
    phoneSpecShape "+234567890" = false := by
  constructor
  · decide
  · decide

/-- C8 (amended): the phone validator accepts a string iff, after peeling
one optional trailing newline (Python's `$`) and one optional leading
`'+'`, the rest is either 9–15 digits or `'1'` followed by 9–15 digits —
the `'+'` and the `'1'` are optional independently; every other string is
rejected with the invalid-format error. -/
theorem validate_phone_shape (phone : String) :
    (_validate_phone_number phone = none ↔ phoneAmendedShape phone) ∧
    (_validate_phone_number phone = some Err.validation ↔
      ¬ phoneAmendedShape phone) := by
  have h := phone_matches_iff phone
  by_cases hm : phone_matches phone
  · simp [_validate_phone_number, hm, h.1 hm]
  · have hs : ¬ phoneAmendedShape phone := fun hsh => hm (h.2 hsh)
    simp [_validate_phone_number, hm, hs]

/-- Witness for the amended C8 at a well-formed and a malformed input. -/
theorem validate_phone_shape_witness :
    phoneAmendedShape "+1234567890" ∧
    _validate_phone_number "123-456-7890" = some Err.validation :=
  ⟨(validate_phone_shape "+1234567890").1.mp (by decide),
   (validate_phone_shape "123-456-7890").2.mpr (fun hsh =>
     absurd ((validate_phone_shape "123-456-7890").1.mpr hsh) (by decide))⟩

/-! ## Further map lemmas: keys, erasure folds, well-formedness -/

theorem mapGet_of_mem (m : List (String × α)) (k : String) (v : α)
    (hnd : (mapKeys m).Nodup) (h : (k, v) ∈ m) : mapGet m k = some v := by
  induction m with
  | nil => simp at h
  | cons e t ih =>
    obtain ⟨ek, ev⟩ := e
    rcases List.mem_cons.1 h with h | h
    · obtain ⟨h1, h2⟩ := Prod.mk.injEq .. ▸ h
      simp [mapGet, h1.symm, h2]
    · have hne : ek ≠ k := by
        intro hh
        subst hh
        exact (List.nodup_cons.1 hnd).1
          (by simpa [mapKeys] using List.mem_map_of_mem Prod.fst h)
      simp [mapGet, hne, ih (List.nodup_cons.1 hnd).2 h]

theorem mapKeys_append (m : List (String × α)) (k : String) (v : α) :
    mapKeys (m ++ [(k, v)]) = mapKeys m ++ [k] := by
  simp [mapKeys]

theorem mapKeys_erase_sublist (m : List (String × α)) (k : String) :
    (mapKeys (mapErase m k)).Sublist (mapKeys m) := by
  induction m with
  | nil => simp [mapErase, mapKeys]
  | cons e t ih =>
    obtain ⟨ek, ev⟩ := e
    by_cases h : ek = k
    · rw [show mapErase ((ek, ev) :: t) k = mapErase t k by simp [mapErase, h]]
      exact ih.cons ek
    · rw [show mapErase ((ek, ev) :: t) k = (ek, ev) :: mapErase t k by
        simp [mapErase, h]]
      exact ih.cons₂ ek

theorem mapGet_foldl_erase (ids : List String) (m : List (String × α))
    (k : String) :
    mapGet (ids.foldl mapErase m) k = if k ∈ ids then none else mapGet m k := by
  induction ids generalizing m with
  | nil => simp
  | cons i rest ih =>
    simp only [List.foldl_cons]
    rw [ih]
    by_cases hk : k ∈ rest
    · simp [hk]
    · by_cases hki : k = i
      · simp [hk, hki, mapGet_erase]
      · simp [hk, hki, mapGet_erase]

theorem mapKeys_foldl_erase_sublist (ids : List String)
    (m : List (String × α)) :
    (mapKeys (ids.foldl mapErase m)).Sublist (mapKeys m) := by
  induction ids generalizing m with
  | nil => simp
  | cons i rest ih =>
    simp only [List.foldl_cons]
    exact (ih (mapErase m i)).trans (mapKeys_erase_sublist m i)

/-! ## Characterizations of the delete cascades -/

theorem delete_claim_present (s : ClaimsManagementSystem) (cid : String)
    (h : (mapGet s.claims cid).isSome) :
    delete_claim s cid = (none, { s with claims := mapErase s.claims cid }) := by
  simp [delete_claim, h]

theorem delete_claim_absent (s : ClaimsManagementSystem) (cid : String)
    (h : mapGet s.claims cid = none) :
    delete_claim s cid = (some Err.validation, s) := by
  simp [delete_claim, h]

theorem foldl_delete_claim (ids : List String) (s : ClaimsManagementSystem)
    (hall : ∀ id ∈ ids, id ∈ mapKeys s.claims) (hnd : ids.Nodup) :
    ids.foldl (fun acc claim_id =>
      match acc.1 with
      | some _ => acc
      | none => delete_claim acc.2 claim_id) ((none : Option Err), s) =
    (none, { s with claims := ids.foldl mapErase s.claims }) := by
  induction ids generalizing s with
  | nil => rfl
  | cons cid rest ih =>
    have hcid : (mapGet s.claims cid).isSome :=
      (mapGet_isSome_iff _ _).2 (hall cid (by simp))
    simp only [List.foldl_cons]
    rw [delete_claim_present s cid hcid]
    have hall' : ∀ id ∈ rest,
        id ∈ mapKeys ({ s with claims := mapErase s.claims cid }).claims := by
      intro id hid
      have hne : id ≠ cid := by
        intro hh
        subst hh
        exact (List.nodup_cons.1 hnd).1 hid
      have hmem := hall id (by simp [hid])
      rw [← mapGet_isSome_iff] at hmem ⊢
      show (mapGet (mapErase s.claims cid) id).isSome
      rw [mapGet_erase, if_neg hne]
      exact hmem
    rw [ih ({ s with claims := mapErase s.claims cid }) hall'
      (List.nodup_cons.1 hnd).2]

theorem delete_policy_spec (s : ClaimsManagementSystem) (pid : String)
    (hWF : WF s) (hp : (mapGet s.policies pid).isSome) :
    (delete_policy s pid).1 = none ∧
    (delete_policy s pid).2.policyholders = s.policyholders ∧
    (∀ k, mapGet (delete_policy s pid).2.policies k =
      if k = pid then none else mapGet s.policies k) ∧
    (∀ k, mapGet (delete_policy s pid).2.claims k =
      match mapGet s.claims k with
      | some c => if c.policy_id = pid then none else some c
      | none => none) ∧
    WF (delete_policy s pid).2 := by
  obtain ⟨hWFh, hWFp, hWFc⟩ := hWF
  set s1 : ClaimsManagementSystem :=
    { s with policies := mapErase s.policies pid } with hs1
  set toDel : List String := (s1.claims.filter
    (fun e => decide (e.2.policy_id = pid))).map Prod.fst with htoDel
  have hDel : delete_policy s pid = toDel.foldl (fun acc claim_id =>
      match acc.1 with
      | some _ => acc
      | none => delete_claim acc.2 claim_id) ((none : Option Err), s1) := by
    rw [delete_policy, if_pos hp]
  have hnd : toDel.Nodup := by
    have hsub : toDel.Sublist (mapKeys s.claims) :=
      (List.filter_sublist _).map Prod.fst
    exact hWFc.sublist hsub
  have hall : ∀ id ∈ toDel, id ∈ mapKeys s.claims := by
    intro id hid
    rw [htoDel] at hid
    obtain ⟨e, he, rfl⟩ := List.mem_map.1 hid
    exact List.mem_map_of_mem Prod.fst (List.mem_of_mem_filter he)
  have hfold := foldl_delete_claim toDel s1 hall hnd
  rw [hDel, hfold]
  have hmemToDel : ∀ k, k ∈ toDel ↔
      ∃ c, mapGet s.claims k = some c ∧ c.policy_id = pid := by
    intro k
    constructor
    · intro hk
      rw [htoDel] at hk
      obtain ⟨e, he, rfl⟩ := List.mem_map.1 hk
      have he' := List.mem_of_mem_filter he
      have hp' := List.of_mem_filter he
      refine ⟨e.2, mapGet_of_mem _ _ _ hWFc ?_, by simpa using hp'⟩
      simpa using he'
    · rintro ⟨c, hc, hcp⟩
      rw [htoDel]
      refine List.mem_map.2 ⟨(k, c), List.mem_filter.2
        ⟨mapGet_eq_some_mem _ _ _ hc, by simpa using hcp⟩, rfl⟩
  refine ⟨rfl, rfl, ?_, ?_, ?_, ?_, ?_⟩
  · intro k
    exact mapGet_erase s.policies k pid
  · intro k
    show mapGet (toDel.foldl mapErase s.claims) k = _
    rw [mapGet_foldl_erase]
    cases hc : mapGet s.claims k with
    | none =>
      have : k ∉ toDel := by
        rw [hmemToDel]
        rintro ⟨c, hc', -⟩
        rw [hc] at hc'
        exact absurd hc' (by simp)
      simp [this]
    | some c =>
      by_cases hcp : c.policy_id = pid
      · have : k ∈ toDel := (hmemToDel k).2 ⟨c, hc, hcp⟩
        simp [this, hcp]
      · have : k ∉ toDel := by
          rw [hmemToDel]
          rintro ⟨c', hc', hcp'⟩
          rw [hc] at hc'
          injection hc' with hcc
          exact hcp (hcc ▸ hcp')
        simp [this, hc, hcp]
  · exact hWFh
  · exact hWFp.sublist (mapKeys_erase_sublist s.policies pid)
  · exact hWFc.sublist (mapKeys_foldl_erase_sublist toDel s.claims)

theorem foldl_delete_policy (ids : List String) (s : ClaimsManagementSystem)
    (r : Option Err × ClaimsManagementSystem)
    (hr : r = ids.foldl (fun acc policy_id =>
      match acc.1 with
      | some _ => acc
      | none => delete_policy acc.2 policy_id) ((none : Option Err), s))
    (hWF : WF s) (hnd : ids.Nodup)
    (hall : ∀ id ∈ ids, (mapGet s.policies id).isSome) :
    r.1 = none ∧ r.2.policyholders = s.policyholders ∧
    (∀ k, mapGet r.2.policies k =
      if k ∈ ids then none else mapGet s.policies k) ∧
    (∀ k, mapGet r.2.claims k =
      match mapGet s.claims k with
      | some c => if c.policy_id ∈ ids then none else some c
      | none => none) ∧
    WF r.2 := by
  induction ids generalizing s r with
  | nil =>
    subst hr
    exact ⟨rfl, rfl, fun k => by simp,
      fun k => by cases hc : mapGet s.claims k <;> simp [hc], hWF⟩
  | cons pid rest ih =>
    have hpid := hall pid (by simp)
    obtain ⟨h1, h2, h3, h4, h5⟩ := delete_policy_spec s pid hWF hpid
    simp only [List.foldl_cons] at hr
    have hpair : delete_policy s pid =
        ((none : Option Err), (delete_policy s pid).2) := by
      rw [← h1]
    rw [hpair] at hr
    have hall' : ∀ id ∈ rest,
        (mapGet (delete_policy s pid).2.policies id).isSome := by
      intro id hid
      rw [h3 id]
      have hne : id ≠ pid := fun hh => (List.nodup_cons.1 hnd).1 (hh ▸ hid)
      rw [if_neg hne]
      exact hall id (by simp [hid])
    obtain ⟨g1, g2, g3, g4, g5⟩ :=
      ih (delete_policy s pid).2 r hr h5 (List.nodup_cons.1 hnd).2 hall'
    refine ⟨g1, g2.trans h2, ?_, ?_, g5⟩
    · intro k
      rw [g3 k, h3 k]
      by_cases hk1 : k ∈ rest
      · simp [hk1]
      · by_cases hk2 : k = pid
        · simp [hk1, hk2]
        · simp [hk1, hk2]
    · intro k
      rw [g4 k, h4 k]
      cases hc : mapGet s.claims k with
      | none => simp
      | some c =>
        by_cases hcp : c.policy_id = pid
        · simp [hcp]
        · by_cases hcr : c.policy_id ∈ rest
          · simp [hcp, hcr]
          · simp [hcp, hcr]

theorem delete_policyholder_spec (s : ClaimsManagementSystem) (pid : String)
    (hWF : WF s) (hp : (mapGet s.policyholders pid).isSome) :
    (delete_policyholder s pid).1 = none ∧
    (∀ k, mapGet (delete_policyholder s pid).2.policyholders k =
      if k = pid then none else mapGet s.policyholders k) ∧
    (∀ k, mapGet (delete_policyholder s pid).2.policies k =
      match mapGet s.policies k with
      | some p => if p.policyholder_id = pid then none else some p
      | none => none) ∧
    (∀ k, mapGet (delete_policyholder s pid).2.claims k =
      match mapGet s.claims k with
      | some c =>
        match mapGet s.policies c.policy_id with
        | some p => if p.policyholder_id = pid then none else some c
        | none => some c
      | none => none) ∧
    WF (delete_policyholder s pid).2 := by
  obtain ⟨hWFh, hWFp, hWFc⟩ := hWF
  set s1 : ClaimsManagementSystem :=
    { s with policyholders := mapErase s.policyholders pid } with hs1
  set toDel : List String := (s1.policies.filter
    (fun e => decide (e.2.policyholder_id = pid))).map Prod.fst with htoDel
  have hWF1 : WF s1 := ⟨hWFh.sublist (mapKeys_erase_sublist _ _), hWFp, hWFc⟩
  have hnd : toDel.Nodup := hWFp.sublist ((List.filter_sublist _).map Prod.fst)
  have hall : ∀ id ∈ toDel, (mapGet s1.policies id).isSome := by
    intro id hid
    rw [htoDel] at hid
    obtain ⟨e, he, rfl⟩ := List.mem_map.1 hid
    show (mapGet s.policies e.1).isSome
    rw [mapGet_isSome_iff]
    exact List.mem_map_of_mem Prod.fst (List.mem_of_mem_filter he)
  have hDel : delete_policyholder s pid = toDel.foldl (fun acc policy_id =>
      match acc.1 with
      | some _ => acc
      | none => delete_policy acc.2 policy_id) ((none : Option Err), s1) := by
    rw [delete_policyholder, if_pos hp]
  obtain ⟨g1, g2, g3, g4, g5⟩ :=
    foldl_delete_policy toDel s1 (delete_policyholder s pid) hDel hWF1 hnd hall
  have hmem : ∀ k, k ∈ toDel ↔
      ∃ p, mapGet s.policies k = some p ∧ p.policyholder_id = pid := by
    intro k
    constructor
    · intro hk
      rw [htoDel] at hk
      obtain ⟨e, he, rfl⟩ := List.mem_map.1 hk
      have he' := List.mem_of_mem_filter he
      have hpr := List.of_mem_filter he
      refine ⟨e.2, mapGet_of_mem _ _ _ hWFp ?_, by simpa using hpr⟩
      simpa using he'
    · rintro ⟨p, hpk, hpp⟩
      rw [htoDel]
      exact List.mem_map.2 ⟨(k, p), List.mem_filter.2
        ⟨mapGet_eq_some_mem _ _ _ hpk, by simpa using hpp⟩, rfl⟩
  refine ⟨g1, ?_, ?_, ?_, g5⟩
  · intro k
    rw [show mapGet (delete_policyholder s pid).2.policyholders k =
      mapGet s1.policyholders k from by rw [g2]]
    show mapGet (mapErase s.policyholders pid) k = _
    rw [mapGet_erase]
  · intro k
    rw [g3 k]
    show (if k ∈ toDel then none else mapGet s.policies k) = _
    cases hpk : mapGet s.policies k with
    | none =>
      have : k ∉ toDel := by
        rw [hmem]
        rintro ⟨p, hp', -⟩
        rw [hpk] at hp'
        exact absurd hp' (by simp)
      simp [this]
    | some p =>
      by_cases hpp : p.policyholder_id = pid
      · have : k ∈ toDel := (hmem k).2 ⟨p, hpk, hpp⟩
        simp [this, hpp]
      · have : k ∉ toDel := by
          rw [hmem]
          rintro ⟨p', hp', hpp'⟩
          rw [hpk] at hp'
          injection hp' with hpe
          exact hpp (hpe ▸ hpp')
        simp [this, hpp]
  · intro k
    rw [g4 k]
    show (match mapGet s.claims k with
      | some c => if c.policy_id ∈ toDel then none else some c
      | none => none) = _
    cases hck : mapGet s.claims k with
    | none => simp
    | some c =>
      cases hcp : mapGet s.policies c.policy_id with
      | none =>
        have : c.policy_id ∉ toDel := by
          rw [hmem]
          rintro ⟨p, hp', -⟩
          rw [hcp] at hp'
          exact absurd hp' (by simp)
        simp [this, hcp]
      | some p =>
        by_cases hpp : p.policyholder_id = pid
        · have : c.policy_id ∈ toDel := (hmem _).2 ⟨p, hcp, hpp⟩
          simp [this, hpp, hcp]
        · have : c.policy_id ∉ toDel := by
            rw [hmem]
            rintro ⟨p', hp', hpp'⟩
            rw [hcp] at hp'
            injection hp' with hpe
            exact hpp (hpe ▸ hpp')
          simp [this, hpp, hcp]

/-! ## Shapes of the remaining operations -/

theorem _validate_policy_none (s : ClaimsManagementSystem) (p : Policy)
    (h : _validate_policy s p = none) :
    (mapGet s.policyholders p.policyholder_id).isSome := by
  rw [_validate_policy] at h
  cases hph : mapGet s.policyholders p.policyholder_id with
  | none => rw [hph] at h; simp at h
  | some ph => simp

theorem _validate_claim_none (s : ClaimsManagementSystem) (c : Claim)
    (h : _validate_claim s c = none) :
    (mapGet s.policies c.policy_id).isSome := by
  rw [_validate_claim] at h
  cases hp : mapGet s.policies c.policy_id with
  | none => rw [hp] at h; simp at h
  | some p => simp

theorem create_policyholder_state (now : Int) (s : ClaimsManagementSystem)
    (ph : Policyholder) :
    (create_policyholder now s ph).2 = s ∨
    ((create_policyholder now s ph).1 = none ∧
      mapGet s.policyholders ph.id = none ∧
      (create_policyholder now s ph).2 =
        { s with policyholders := s.policyholders ++ [(ph.id, ph)] }) := by
  rw [create_policyholder]
  cases hv : _validate_policyholder now ph with
  | some e => exact Or.inl rfl
  | none =>
    by_cases hdup : (mapGet s.policyholders ph.id).isSome
    · rw [if_pos hdup]
      exact Or.inl rfl
    · rw [if_neg hdup]
      exact Or.inr ⟨rfl, Option.not_isSome_iff_eq_none.1 hdup, rfl⟩

theorem create_policy_state (s : ClaimsManagementSystem) (p : Policy) :
    (create_policy s p).2 = s ∨
    ((create_policy s p).1 = none ∧ _validate_policy s p = none ∧
      mapGet s.policies p.id = none ∧
      (create_policy s p).2 =
        { s with policies := s.policies ++ [(p.id, p)] }) := by
  rw [create_policy]
  cases hv : _validate_policy s p with
  | some e => exact Or.inl rfl
  | none =>
    by_cases hdup : (mapGet s.policies p.id).isSome
    · rw [if_pos hdup]
      exact Or.inl rfl
    · rw [if_neg hdup]
      exact Or.inr ⟨rfl, rfl, Option.not_isSome_iff_eq_none.1 hdup, rfl⟩

theorem create_claim_state (s : ClaimsManagementSystem) (c : Claim) :
    (create_claim s c).2 = s ∨
    ((create_claim s c).1 = none ∧ _validate_claim s c = none ∧
      mapGet s.claims c.id = none ∧
      (create_claim s c).2 = { s with claims := s.claims ++ [(c.id, c)] }) := by
  rw [create_claim]
  cases hv : _validate_claim s c with
  | some e => exact Or.inl rfl
  | none =>
    by_cases hdup : (mapGet s.claims c.id).isSome
    · rw [if_pos hdup]
      exact Or.inl rfl
    · rw [if_neg hdup]
      exact Or.inr ⟨rfl, rfl, Option.not_isSome_iff_eq_none.1 hdup, rfl⟩

theorem update_policyholder_state (now : Int) (s : ClaimsManagementSystem)
    (pid : String) (n c e : Option String) (d : Option Int) :
    (update_policyholder now s pid n c e d).2 = s ∨
    ∃ ph, (update_policyholder now s pid n c e d).2 =
      { s with policyholders := mapSet s.policyholders pid ph } := by
  rw [update_policyholder]
  cases hph : mapGet s.policyholders pid with
  | none => exact Or.inl rfl
  | some ph0 =>
    right
    dsimp only
    split
    · exact ⟨_, rfl⟩
    · split
      · exact ⟨_, rfl⟩
      · split
        · split
          · exact ⟨_, rfl⟩
          · exact ⟨_, rfl⟩
        · exact ⟨_, rfl⟩

theorem update_policy_state (s : ClaimsManagementSystem) (pid : String)
    (ty : Option String) (sd ed : Option Int) (cov prem : Option ℚ) :
    ((update_policy s pid ty sd ed cov prem).2 = s ∧
      mapGet s.policies pid = none) ∨
    ∃ p0, mapGet s.policies pid = some p0 ∧
      (update_policy s pid ty sd ed cov prem).2 =
        { s with policies :=
            mapSet s.policies pid (appliedPolicy p0 ty sd ed cov prem) } := by
  rw [update_policy]
  cases hp : mapGet s.policies pid with
  | none => exact Or.inl ⟨rfl, rfl⟩
  | some p0 =>
    right
    refine ⟨p0, rfl, ?_⟩
    dsimp only
    split <;> rfl

theorem update_claim_state (s : ClaimsManagementSystem) (cid : String)
    (d : Option String) (a : Option ℚ) (st : Option ClaimStatus) :
    ((update_claim s cid d a st).2 = s ∧ mapGet s.claims cid = none) ∨
    ∃ c0, mapGet s.claims cid = some c0 ∧
      (update_claim s cid d a st).2 =
        { s with claims := mapSet s.claims cid (appliedClaim c0 d a st) } := by
  rw [update_claim]
  cases hc : mapGet s.claims cid with
  | none => exact Or.inl ⟨rfl, rfl⟩
  | some c0 =>
    right
    refine ⟨c0, rfl, ?_⟩
    dsimp only
    split <;> rfl

theorem delete_claim_state (s : ClaimsManagementSystem) (cid : String) :
    (delete_claim s cid).2 = s ∨
    (delete_claim s cid).2 = { s with claims := mapErase s.claims cid } := by
  rw [delete_claim]
  by_cases h : (mapGet s.claims cid).isSome
  · rw [if_pos h]
    exact Or.inr rfl
  · rw [if_neg h]
    exact Or.inl rfl

/-! ## Preservation of well-formedness and referential integrity -/

theorem nodup_keys_append (m : List (String × α)) (k : String) (v : α)
    (hnd : (mapKeys m).Nodup) (h : mapGet m k = none) :
    (mapKeys (m ++ [(k, v)])).Nodup := by
  rw [mapKeys_append, List.nodup_append]
  refine ⟨hnd, List.nodup_singleton k, ?_⟩
  intro x hx hk
  simp only [List.mem_singleton] at hk
  subst hk
  rw [mapGet_eq_none_iff] at h
  exact h hx

theorem step_preserves (s : ClaimsManagementSystem) (op : Op)
    (h : WF s ∧ Integrity s) : WF (step s op) ∧ Integrity (step s op) := by
  obtain ⟨hWF, hIntP, hIntC⟩ := h
  obtain ⟨hWFh, hWFp, hWFc⟩ := hWF
  cases op with
  | createPolicyholder now ph =>
    simp only [step, runOp]
    rcases create_policyholder_state now s ph with hs | ⟨-, hfresh, hs⟩
    · rw [hs]
      exact ⟨⟨hWFh, hWFp, hWFc⟩, hIntP, hIntC⟩
    · rw [hs]
      refine ⟨⟨nodup_keys_append _ _ _ hWFh hfresh, hWFp, hWFc⟩, ?_, hIntC⟩
      intro k p hk
      rw [mapKeys_append]
      exact List.mem_append_left _ (hIntP k p hk)
  | updatePolicyholder now pid n c e d =>
    simp only [step, runOp]
    rcases update_policyholder_state now s pid n c e d with hs | ⟨ph, hs⟩
    · rw [hs]
      exact ⟨⟨hWFh, hWFp, hWFc⟩, hIntP, hIntC⟩
    · rw [hs]
      refine ⟨⟨?_, hWFp, hWFc⟩, ?_, hIntC⟩
      · rw [show mapKeys (mapSet s.policyholders pid ph) =
          mapKeys s.policyholders from mapKeys_set _ _ _]
        exact hWFh
      · intro k p hk
        rw [show mapKeys (mapSet s.policyholders pid ph) =
          mapKeys s.policyholders from mapKeys_set _ _ _]
        exact hIntP k p hk
  | deletePolicyholder pid =>
    simp only [step, runOp]
    by_cases hp : (mapGet s.policyholders pid).isSome
    · obtain ⟨g1, g2, g3, g4, g5⟩ :=
        delete_policyholder_spec s pid ⟨hWFh, hWFp, hWFc⟩ hp
      refine ⟨g5, ?_, ?_⟩
      · intro k p hk
        rw [g3 k] at hk
        cases hpk : mapGet s.policies k with
        | none => rw [hpk] at hk; simp at hk
        | some p0 =>
          simp only [hpk] at hk
          by_cases hpp : p0.policyholder_id = pid
          · rw [if_pos hpp] at hk
            simp at hk
          · rw [if_neg hpp] at hk
            injection hk with hk'
            subst hk'
            rw [← mapGet_isSome_iff, g2 p0.policyholder_id, if_neg hpp,
              mapGet_isSome_iff]
            exact hIntP k p0 hpk
      · intro k c hk
        rw [g4 k] at hk
        cases hck : mapGet s.claims k with
        | none => rw [hck] at hk; simp at hk
        | some c0 =>
          simp only [hck] at hk
          cases hpc : mapGet s.policies c0.policy_id with
          | none =>
            have := hIntC k c0 hck
            rw [← mapGet_isSome_iff, hpc] at this
            simp at this
          | some p0 =>
            simp only [hpc] at hk
            by_cases hpp : p0.policyholder_id = pid
            · rw [if_pos hpp] at hk
              simp at hk
            · rw [if_neg hpp] at hk
              injection hk with hk'
              subst hk'
              rw [← mapGet_isSome_iff, g3 c0.policy_id, hpc]
              simp [hpp]
    · have hs : (delete_policyholder s pid).2 = s := by
        rw [delete_policyholder, if_neg hp]
      rw [hs]
      exact ⟨⟨hWFh, hWFp, hWFc⟩, hIntP, hIntC⟩
  | createPolicy p =>
    simp only [step, runOp]
    rcases create_policy_state s p with hs | ⟨-, hv, hfresh, hs⟩
    · rw [hs]
      exact ⟨⟨hWFh, hWFp, hWFc⟩, hIntP, hIntC⟩
    · rw [hs]
      refine ⟨⟨hWFh, nodup_keys_append _ _ _ hWFp hfresh, hWFc⟩, ?_, ?_⟩
      · intro k q hk
        rw [mapGet_append] at hk
        cases hpk : mapGet s.policies k with
        | some q0 =>
          rw [hpk] at hk
          simp only [Option.orElse] at hk
          injection hk with hk'
          subst hk'
          exact hIntP k q0 hpk
        | none =>
          rw [hpk] at hk
          simp only [Option.orElse] at hk
          rw [show mapGet [(p.id, p)] k = if p.id = k then some p else none
            from rfl] at hk
          by_cases hkp : p.id = k
          · rw [if_pos hkp] at hk
            injection hk with hk'
            subst hk'
            rw [← mapGet_isSome_iff]
            exact _validate_policy_none s p hv
          · rw [if_neg hkp] at hk
            simp at hk
      · intro k c hk
        rw [mapKeys_append]
        exact List.mem_append_left _ (hIntC k c hk)
  | updatePolicy pid ty sd ed cov prem =>
    simp only [step, runOp]
    rcases update_policy_state s pid ty sd ed cov prem with ⟨hs, -⟩ | ⟨p0, hp0, hs⟩
    · rw [hs]
      exact ⟨⟨hWFh, hWFp, hWFc⟩, hIntP, hIntC⟩
    · rw [hs]
      refine ⟨⟨hWFh, ?_, hWFc⟩, ?_, ?_⟩
      · rw [show mapKeys (mapSet s.policies pid (appliedPolicy p0 ty sd ed cov prem)) =
          mapKeys s.policies from mapKeys_set _ _ _]
        exact hWFp
      · intro k q hk
        by_cases hkp : k = pid
        · subst hkp
          rw [mapGet_set_self, hp0] at hk
          simp only [Option.map] at hk
          injection hk with hk'
          subst hk'
          exact hIntP k p0 hp0
        · rw [mapGet_set_ne _ _ _ _ hkp] at hk
          exact hIntP k q hk
      · intro k c hk
        rw [show mapKeys (mapSet s.policies pid (appliedPolicy p0 ty sd ed cov prem)) =
          mapKeys s.policies from mapKeys_set _ _ _]
        exact hIntC k c hk
  | deletePolicy pid =>
    simp only [step, runOp]
    by_cases hp : (mapGet s.policies pid).isSome
    · obtain ⟨g1, g2, g3, g4, g5⟩ := delete_policy_spec s pid ⟨hWFh, hWFp, hWFc⟩ hp
      refine ⟨g5, ?_, ?_⟩
      · intro k q hk
        rw [g3 k] at hk
        by_cases hkp : k = pid
        · rw [if_pos hkp] at hk
          simp at hk
        · rw [if_neg hkp] at hk
          rw [show (delete_policy s pid).2.policyholders = s.policyholders from g2]
          exact hIntP k q hk
      · intro k c hk
        rw [g4 k] at hk
        cases hck : mapGet s.claims k with
        | none => rw [hck] at hk; simp at hk
        | some c0 =>
          simp only [hck] at hk
          by_cases hcp : c0.policy_id = pid
          · rw [if_pos hcp] at hk
            simp at hk
          · rw [if_neg hcp] at hk
            injection hk with hk'
            subst hk'
            rw [← mapGet_isSome_iff, g3 c0.policy_id, if_neg hcp,
              mapGet_isSome_iff]
            exact hIntC k c0 hck
    · have hs : (delete_policy s pid).2 = s := by
        rw [delete_policy, if_neg hp]
      rw [hs]
      exact ⟨⟨hWFh, hWFp, hWFc⟩, hIntP, hIntC⟩
  | createClaim c =>
    simp only [step, runOp]
    rcases create_claim_state s c with hs | ⟨-, hv, hfresh, hs⟩
    · rw [hs]
      exact ⟨⟨hWFh, hWFp, hWFc⟩, hIntP, hIntC⟩
    · rw [hs]
      refine ⟨⟨hWFh, hWFp, nodup_keys_append _ _ _ hWFc hfresh⟩, hIntP, ?_⟩
      intro k c' hk
      rw [mapGet_append] at hk
      cases hck : mapGet s.claims k with
      | some c0 =>
        rw [hck] at hk
        simp only [Option.orElse] at hk
        injection hk with hk'
        subst hk'
        exact hIntC k c0 hck
      | none =>
        rw [hck] at hk
        simp only [Option.orElse] at hk
        rw [show mapGet [(c.id, c)] k = if c.id = k then some c else none
          from rfl] at hk
        by_cases hkc : c.id = k
        · rw [if_pos hkc] at hk
          injection hk with hk'
          subst hk'
          rw [← mapGet_isSome_iff]
          exact _validate_claim_none s c hv
        · rw [if_neg hkc] at hk
          simp at hk
  | updateClaim cid d a st =>
    simp only [step, runOp]
    rcases update_claim_state s cid d a st with ⟨hs, -⟩ | ⟨c0, hc0, hs⟩
    · rw [hs]
      exact ⟨⟨hWFh, hWFp, hWFc⟩, hIntP, hIntC⟩
    · rw [hs]
      refine ⟨⟨hWFh, hWFp, ?_⟩, hIntP, ?_⟩
      · rw [show mapKeys (mapSet s.claims cid (appliedClaim c0 d a st)) =
          mapKeys s.claims from mapKeys_set _ _ _]
        exact hWFc
      · intro k c hk
        by_cases hkc : k = cid
        · subst hkc
          rw [mapGet_set_self, hc0] at hk
          simp only [Option.map] at hk
          injection hk with hk'
          subst hk'
          exact hIntC k c0 hc0
        · rw [mapGet_set_ne _ _ _ _ hkc] at hk
          exact hIntC k c hk
  | deleteClaim cid =>
    simp only [step, runOp]
    rcases delete_claim_state s cid with hs | hs
    · rw [hs]
      exact ⟨⟨hWFh, hWFp, hWFc⟩, hIntP, hIntC⟩
    · rw [hs]
      refine ⟨⟨hWFh, hWFp, hWFc.sublist (mapKeys_erase_sublist _ _)⟩, hIntP, ?_⟩
      intro k c hk
      rw [mapGet_erase] at hk
      by_cases hkc : k = cid
      · rw [if_pos hkc] at hk
        simp at hk
      · rw [if_neg hkc] at hk
        exact hIntC k c hk

theorem reachable_wf_and_integrity (s : ClaimsManagementSystem)
    (h : Reachable s) : WF s ∧ Integrity s := by
  induction h with
  | empty =>
    refine ⟨⟨?_, ?_, ?_⟩, ?_, ?_⟩
    · simp [emptyCMS, mapKeys]
    · simp [emptyCMS, mapKeys]
    · simp [emptyCMS, mapKeys]
    · intro k p hk
      simp [emptyCMS, mapGet] at hk
    · intro k c hk
      simp [emptyCMS, mapGet] at hk
  | step op hs ih => exact step_preserves _ op ih

/-! ## Claim C9: referential integrity of reachable states -/

/-- C9: in any state produced from the empty store by any sequence of
engine operations (successful or failed), every stored policy's
`policyholder_id` is a key of the policyholders mapping and every stored
claim's `policy_id` is a key of the policies mapping. -/
theorem reachable_integrity (s : ClaimsManagementSystem) (h : Reachable s) :
    Integrity s :=
  (reachable_wf_and_integrity s h).2

/-- Witness for C9: the state after creating `PH001` and `POL001` from the
empty store satisfies referential integrity. -/
theorem reachable_integrity_witness :
    Integrity (step (step emptyCMS
      (Op.createPolicyholder 20000 samplePolicyholder))
      (Op.createPolicy samplePolicy)) :=
  reachable_integrity _
    (Reachable.step (Op.createPolicy samplePolicy)
      (Reachable.step (Op.createPolicyholder 20000 samplePolicyholder)
        Reachable.empty))

/-! ## Claim C1: transactional granularity of the operations -/

/-- C1 counterexample: `update_policy` with an invalid `end_date` fails
with `ValidationError` but leaves the *mutated* policy in the store — the
stored record is not "exactly as it was before the call". -/
theorem update_not_atomic_counterexample :
    (update_policy sampleStore "POL001" none none (some 5000) none none).1 =
      some Err.validation ∧
    (update_policy sampleStore "POL001" none none (some 5000) none none).2 ≠
      sampleStore ∧
    get_policy (update_policy sampleStore "POL001" none none
      (some 5000) none none).2 "POL001" =
      some { samplePolicy with end_date := 5000 } :=
  ⟨by decide, by decide, by decide⟩

/-- C1 (amended): the create and delete operations are atomic — on any
failure they leave all three mappings unchanged — but `update_policy` and
`update_claim` write the field-applied record into the store *before*
validating, so the mutated record is stored whether or not the final
validation succeeds (the counterexample shows a failing call whose
mutation persists). -/
theorem create_delete_atomic_update_writes_first
    (now : Int) (s : ClaimsManagementSystem) (hWF : WF s)
    (ph : Policyholder) (p : Policy) (c : Claim) (id : String) :
    ((create_policyholder now s ph).1 ≠ none →
      (create_policyholder now s ph).2 = s) ∧
    ((create_policy s p).1 ≠ none → (create_policy s p).2 = s) ∧
    ((create_claim s c).1 ≠ none → (create_claim s c).2 = s) ∧
    ((delete_policyholder s id).1 ≠ none → (delete_policyholder s id).2 = s) ∧
    ((delete_policy s id).1 ≠ none → (delete_policy s id).2 = s) ∧
    ((delete_claim s id).1 ≠ none → (delete_claim s id).2 = s) ∧
    (∀ (ty : Option String) (sd ed : Option Int) (cov prem : Option ℚ)
        (p0 : Policy), mapGet s.policies id = some p0 →
      (update_policy s id ty sd ed cov prem).2 =
        { s with policies :=
            mapSet s.policies id (appliedPolicy p0 ty sd ed cov prem) }) ∧
    (∀ (d : Option String) (a : Option ℚ) (st : Option ClaimStatus)
        (c0 : Claim), mapGet s.claims id = some c0 →
      (update_claim s id d a st).2 =
        { s with claims := mapSet s.claims id (appliedClaim c0 d a st) }) := by
  refine ⟨?_, ?_, ?_, ?_, ?_, ?_, ?_, ?_⟩
  · intro hne
    rcases create_policyholder_state now s ph with hs | ⟨h1, -, -⟩
    · exact hs
    · exact absurd h1 hne
  · intro hne
    rcases create_policy_state s p with hs | ⟨h1, -, -, -⟩
    · exact hs
    · exact absurd h1 hne
  · intro hne
    rcases create_claim_state s c with hs | ⟨h1, -, -, -⟩
    · exact hs
    · exact absurd h1 hne
  · intro hne
    by_cases hp : (mapGet s.policyholders id).isSome
    · exact absurd (delete_policyholder_spec s id hWF hp).1 hne
    · rw [delete_policyholder, if_neg hp]
  · intro hne
    by_cases hp : (mapGet s.policies id).isSome
    · exact absurd (delete_policy_spec s id hWF hp).1 hne
    · rw [delete_policy, if_neg hp]
  · intro hne
    by_cases hp : (mapGet s.claims id).isSome
    · exact absurd (delete_claim_present s id hp ▸ rfl : (delete_claim s id).1 = none) hne
    · rw [delete_claim, if_neg hp]
  · intro ty sd ed cov prem p0 hp0
    rcases update_policy_state s id ty sd ed cov prem with ⟨-, hnone⟩ | ⟨p0', hp0', hs⟩
    · rw [hp0] at hnone
      exact absurd hnone (by simp)
    · rw [hp0] at hp0'
      injection hp0' with he
      subst he
      exact hs
  · intro d a st c0 hc0
    rcases update_claim_state s id d a st with ⟨-, hnone⟩ | ⟨c0', hc0', hs⟩
    · rw [hc0] at hnone
      exact absurd hnone (by simp)
    · rw [hc0] at hc0'
      injection hc0' with he
      subst he
      exact hs

theorem sampleStore_wf : WF sampleStore := by
  refine ⟨?_, ?_, ?_⟩ <;> simp [sampleStore, mapKeys]

/-- Witness for the amended C1: a duplicate create and a delete of a
missing id leave the sample store untouched; the failing `update_policy`
of the counterexample stores exactly the field-applied record. -/
theorem create_delete_atomic_update_writes_first_witness :
    (create_policyholder 20000 sampleStore samplePolicyholder).2 =
      sampleStore ∧
    (delete_policy sampleStore "MISSING").2 = sampleStore ∧
    (update_policy sampleStore "POL001" none none (some 5000) none none).2 =
      { sampleStore with policies :=
          (mapSet sampleStore.policies "POL001"
            (appliedPolicy samplePolicy none none (some 5000) none none)) } :=
  ⟨(create_delete_atomic_update_writes_first 20000 sampleStore sampleStore_wf
      samplePolicyholder samplePolicy sampleClaim "MISSING").1 (by decide),
   (create_delete_atomic_update_writes_first 20000 sampleStore sampleStore_wf
      samplePolicyholder samplePolicy sampleClaim "MISSING").2.2.2.2.1
      (by decide),
   (create_delete_atomic_update_writes_first 20000 sampleStore sampleStore_wf
      samplePolicyholder samplePolicy sampleClaim "POL001").2.2.2.2.2.2.1
      none none (some 5000) none none samplePolicy (by decide)⟩

/-! ## Claim C3: the delete cascade -/

/-- C3 counterexample: with policyholder `PH001`, policy `POL001` and claim
`CL001` present, plus a second policy `POL2` of the same holder,
`delete_policyholder "PH001"` succeeds but also removes `POL2` — a record
other than the three named ones — refuting "no other records are
removed". -/
theorem cascade_delete_counterexample :
    (delete_policyholder extraPolicyStore "PH001").1 = none ∧
    get_policy extraPolicyStore "POL2" = some secondPolicy ∧
    get_policy (delete_policyholder extraPolicyStore "PH001").2 "POL2" =
      none :=
  ⟨by decide, by decide, by decide⟩

/-- C3 (amended): in every well-formed state containing a policyholder, a
policy of that policyholder and a claim on that policy,
`delete_policyholder` succeeds and removes the three records — subsequent
gets return the absent indicator — and the full cascade removes exactly:
the policyholder, *every* policy whose `policyholder_id` matches, and
every claim whose policy belongs to the deleted policyholder; all other
records are untouched. -/
theorem delete_policyholder_cascade
    (s : ClaimsManagementSystem) (hWF : WF s) (phId : String)
    (ph : Policyholder) (polId : String) (pol : Policy)
    (clId : String) (cl : Claim)
    (hph : get_policyholder s phId = some ph)
    (hpol : get_policy s polId = some pol)
    (hpolFk : pol.policyholder_id = phId)
    (hcl : get_claim s clId = some cl)
    (hclFk : cl.policy_id = polId) :
    (delete_policyholder s phId).1 = none ∧
    get_policyholder (delete_policyholder s phId).2 phId = none ∧
    get_policy (delete_policyholder s phId).2 polId = none ∧
    get_claim (delete_policyholder s phId).2 clId = none ∧
    (∀ k, mapGet (delete_policyholder s phId).2.policyholders k =
      if k = phId then none else mapGet s.policyholders k) ∧
    (∀ k, mapGet (delete_policyholder s phId).2.policies k =
      match mapGet s.policies k with
      | some p => if p.policyholder_id = phId then none else some p
      | none => none) ∧
    (∀ k, mapGet (delete_policyholder s phId).2.claims k =
      match mapGet s.claims k with
      | some c =>
        match mapGet s.policies c.policy_id with
        | some p => if p.policyholder_id = phId then none else some c
        | none => some c
      | none => none) := by
  have hp : (mapGet s.policyholders phId).isSome := by
    rw [show mapGet s.policyholders phId = some ph from hph]
    simp
  obtain ⟨g1, g2, g3, g4, g5⟩ := delete_policyholder_spec s phId hWF hp
  refine ⟨g1, ?_, ?_, ?_, g2, g3, g4⟩
  · show mapGet (delete_policyholder s phId).2.policyholders phId = none
    rw [g2 phId, if_pos rfl]
  · show mapGet (delete_policyholder s phId).2.policies polId = none
    rw [g3 polId, show mapGet s.policies polId = some pol from hpol]
    simp [hpolFk]
  · show mapGet (delete_policyholder s phId).2.claims clId = none
    rw [g4 clId, show mapGet s.claims clId = some cl from hcl]
    simp only [hclFk, show mapGet s.policies polId = some pol from hpol]
    simp [hpolFk]

theorem sampleStoreWithClaim_wf : WF (sampleStoreWithClaim .submitted) := by
  refine ⟨?_, ?_, ?_⟩ <;> simp [sampleStoreWithClaim, mapKeys]

/-- Witness for the amended C3 at the spec's §8 data: deleting `PH001`
removes `PH001`, `POL001` and `CL001`. -/
theorem delete_policyholder_cascade_witness :
    (delete_policyholder (sampleStoreWithClaim .submitted) "PH001").1 =
      none ∧
    get_policyholder
      (delete_policyholder (sampleStoreWithClaim .submitted) "PH001").2
      "PH001" = none ∧
    get_policy
      (delete_policyholder (sampleStoreWithClaim .submitted) "PH001").2
      "POL001" = none ∧
    get_claim
      (delete_policyholder (sampleStoreWithClaim .submitted) "PH001").2
      "CL001" = none := by
  have h := delete_policyholder_cascade (sampleStoreWithClaim .submitted)
    sampleStoreWithClaim_wf "PH001" samplePolicyholder "POL001" samplePolicy
    "CL001" sampleClaim (by decide) (by decide) (by decide) (by decide)
    (by decide)
  exact ⟨h.1, h.2.1, h.2.2.1, h.2.2.2.1⟩

/-! ## Claim C2: the "Closed claims are frozen" rule -/

/-- C2 counterexample: `CL001` is stored with status Closed, yet the
engine's `update_claim` changes its description and reports success — a
Closed claim can still be modified. -/
theorem closed_claim_update_counterexample :
    (update_claim (sampleStoreWithClaim .closed) "CL001"
      (some "changed") none none).1 = none ∧
    get_claim (update_claim (sampleStoreWithClaim .closed) "CL001"
      (some "changed") none none).2 "CL001" =
      some { sampleClaim with status := .closed, description := "changed" } :=
  ⟨by decide, by decide⟩

/-- C2 (amended): the `SCMS_api.py` engine enforces no Closed restriction
at all (see the counterexample); the `SCMS_CRUD.py` variant's
`update_claim` rejects only a *status* change on a Closed claim — a call
supplying just a status fails with `ValidationError` and leaves the store
unchanged — while `description` (and `amount`) of a Closed claim remain
changeable even there. -/
theorem crud_closed_status_guard
    (s : CRUD.ClaimsManagementSystem) (cid : String) (c0 : CRUD.Claim)
    (st : ClaimStatus) (hc : mapGet s.claims cid = some c0)
    (hclosed : c0.status = ClaimStatus.closed) :
    CRUD.update_claim s cid none none (some st) = (some Err.validation, s) ∧
    (∀ d : String, d ≠ "" →
      (CRUD.update_claim s cid (some d) none none).1 = none ∧
      mapGet (CRUD.update_claim s cid (some d) none none).2.claims cid =
        some { c0 with description := d }) := by
  constructor
  · rw [CRUD.update_claim, hc]
    dsimp only
    rw [show applyStrField c0.description none = c0.description from rfl]
    rw [if_pos hclosed]
    rw [mapSet_same s.claims cid c0 hc]
  · intro d hd
    rw [CRUD.update_claim, hc]
    dsimp only
    rw [show applyStrField c0.description (some d) = if d = "" then
      c0.description else d from rfl, if_neg hd]
    constructor
    · rfl
    · show mapGet (mapSet s.claims cid { c0 with description := d }) cid = _
      rw [mapGet_set_self, hc]
      rfl

/-- Witness for the amended C2: on the CRUD store, a status-only update of
the Closed claim fails and changes nothing, while a description update
still goes through. -/
theorem crud_closed_status_guard_witness :
    CRUD.update_claim crudStore "CL001" none none (some .submitted) =
      (some Err.validation, crudStore) ∧
    (CRUD.update_claim crudStore "CL001" (some "reopened") none none).1 =
      none :=
  ⟨(crud_closed_status_guard crudStore "CL001" crudClosedClaim .submitted
      (by decide) (by decide)).1,
   ((crud_closed_status_guard crudStore "CL001" crudClosedClaim .submitted
      (by decide) (by decide)).2 "reopened" (by decide)).1⟩

/-! ## Claim C10: the empty string as an update argument -/

theorem applyStrField_empty (x : String) : applyStrField x (some "") = x := by
  simp [applyStrField]

theorem applyStrField_none (x : String) : applyStrField x none = x := rfl

theorem appliedClaim_empty_desc (c0 : Claim) (a : Option ℚ)
    (st : Option ClaimStatus) :
    appliedClaim c0 (some "") a st = appliedClaim c0 none a st := by
  simp [appliedClaim, applyStrField]

theorem appliedPolicy_empty_type (p0 : Policy) (sd ed : Option Int)
    (cov prem : Option ℚ) :
    appliedPolicy p0 (some "") sd ed cov prem =
      appliedPolicy p0 none sd ed cov prem := by
  simp [appliedPolicy, applyStrField]

/-- C10: passing `""` for a string-valued field of an update operation
(`name`, `contact_number`, `email` in `update_policyholder`; `description`
in `update_claim`; `type` in `update_policy`) is treated as the field not
being provided: the call behaves identically to omitting the field (its
validator is not run), the stored record's field keeps its previous value,
and an update supplying only the empty string succeeds — the empty string
can never be stored via update. -/
theorem empty_string_update_ignored
    (now : Int) (s : ClaimsManagementSystem) (id : String)
    (n c e : Option String) (d : Option Int) (a : Option ℚ)
    (st : Option ClaimStatus) (sd ed : Option Int) (cov prem : Option ℚ) :
    (update_policyholder now s id (some "") c e d =
      update_policyholder now s id none c e d) ∧
    (update_policyholder now s id n (some "") e d =
      update_policyholder now s id n none e d) ∧
    (update_policyholder now s id n c (some "") d =
      update_policyholder now s id n c none d) ∧
    (update_claim s id (some "") a st = update_claim s id none a st) ∧
    (update_policy s id (some "") sd ed cov prem =
      update_policy s id none sd ed cov prem) ∧
    (∀ ph0, mapGet s.policyholders id = some ph0 →
      update_policyholder now s id (some "") none none none = (none, s)) ∧
    (∀ ph0, mapGet s.policyholders id = some ph0 → ∀ r,
      mapGet (update_policyholder now s id (some "") c e d).2.policyholders
        id = some r → r.name = ph0.name) ∧
    (∀ c0, mapGet s.claims id = some c0 → ∀ r,
      mapGet (update_claim s id (some "") a st).2.claims id = some r →
        r.description = c0.description) ∧
    (∀ p0, mapGet s.policies id = some p0 → ∀ r,
      mapGet (update_policy s id (some "") sd ed cov prem).2.policies id =
        some r → r.type = p0.type) := by
  refine ⟨?_, ?_, ?_, ?_, ?_, ?_, ?_, ?_, ?_⟩
  · simp only [update_policyholder, applyStrField_empty, applyStrField_none]
  · simp [update_policyholder, strProvided, applyStrField]
  · simp [update_policyholder, strProvided, applyStrField]
  · simp only [update_claim, appliedClaim_empty_desc]
  · simp only [update_policy, appliedPolicy_empty_type]
  · intro ph0 hph0
    rw [update_policyholder, hph0]
    dsimp only
    rw [if_neg (by simp [strProvided]), if_neg (by simp [strProvided])]
    exact congrArg (fun x => ((none : Option Err),
      { s with policyholders := x })) (mapSet_same s.policyholders id ph0 hph0)
  · intro ph0 hph0 r hr
    rw [update_policyholder, hph0] at hr
    dsimp only at hr
    repeat' split at hr
    all_goals
      dsimp only at hr
    all_goals
      rw [mapGet_set_self, hph0] at hr
    all_goals
      simp only [Option.map] at hr
    all_goals
      injection hr with hr'
    all_goals
      subst hr'
    all_goals
      simp [applyStrField]
  · intro c0 hc0 r hr
    rw [update_claim, hc0] at hr
    dsimp only at hr
    split at hr <;>
      (dsimp only at hr
       rw [mapGet_set_self, hc0] at hr
       simp only [Option.map] at hr
       injection hr with hr'
       subst hr'
       simp [appliedClaim, applyStrField])
  · intro p0 hp0 r hr
    rw [update_policy, hp0] at hr
    dsimp only at hr
    split at hr <;>
      (dsimp only at hr
       rw [mapGet_set_self, hp0] at hr
       simp only [Option.map] at hr
       injection hr with hr'
       subst hr'
       simp [appliedPolicy, applyStrField])

/-- Witness for C10: a name-only empty-string update of `PH001` succeeds
and leaves the store untouched, and an empty-string description update of
`CL001` coincides with the no-field update. -/
theorem empty_string_update_ignored_witness :
    update_policyholder 20000 sampleStore "PH001" (some "") none none none =
      (none, sampleStore) ∧
    update_claim (sampleStoreWithClaim .submitted) "CL001" (some "") none
      none = update_claim (sampleStoreWithClaim .submitted) "CL001" none
      none none :=
  ⟨(empty_string_update_ignored 20000 sampleStore "PH001" none none none
      none none none none none none none).2.2.2.2.2.1 samplePolicyholder
      (by decide),
   (empty_string_update_ignored 20000 (sampleStoreWithClaim .submitted)
      "CL001" none none none none none none none none none
      none).2.2.2.1⟩

end SCMS
